import Mathlib

/-!
ASCII-cpp: the `plotter::Canvas` character grid and its iterators.

A shallow embedding of `src/Canvas.cpp`, `src/CanvasIterators.hpp` and `src/Config.cpp`.

Conventions of the embedding.

* `int` is a 32-bit two's complement integer, `std::ptrdiff_t` a 64-bit one and
  `size_t` a 64-bit unsigned one.  Values are carried as `Int` / `Nat`; every
  arithmetic result is reduced explicitly (`wrapInt`, `wrapLong`, `toSizeT`).
  Signed arithmetic that leaves its range keeps the low bits, as the usual
  compilation of `int` arithmetic does; arguments of type `int` range over `IsInt`.
* `std::vector<char>` is a `List Char`.  A `char &` into the buffer is the
  position of the cell in the buffer (a `Nat`): reading and writing through the
  reference are `Canvas.load` and `Canvas.store` at that position.
* A call either returns, or throws one of the exceptions of `Error`, or has no
  defined behaviour (`Error.undefinedBehavior`: unchecked indexing outside the
  buffer, division by zero).
* A `Canvas *` held by an iterator is an address (`Nat`); the canvas object it
  points to is passed to the operations that go through the pointer.
-/

namespace plotter

/-! ## Machine integers -/

/-- Largest value of `int`. -/
def INT_MAX : Int := 2147483647

/-- Smallest value of `int`. -/
def INT_MIN : Int := -2147483648

/-- Reduction of a mathematical integer to the `int` with the same low 32 bits. -/
def wrapInt (z : Int) : Int := (z + 2147483648) % 4294967296 - 2147483648

/-- Reduction of a mathematical integer to the `std::ptrdiff_t` with the same low 64 bits. -/
def wrapLong (z : Int) : Int :=
  (z + 9223372036854775808) % 18446744073709551616 - 9223372036854775808

/-- Conversion of a signed integer to `size_t` (reduction modulo `2^64`). -/
def toSizeT (z : Int) : Nat := (z % 18446744073709551616).toNat

/-- The value `std::vector<char>::max_size()`: `PTRDIFF_MAX` elements. -/
def vectorMaxSize : Nat := 9223372036854775807

/-- The range of `int`. -/
def IsInt (z : Int) : Prop := INT_MIN ≤ z ∧ z ≤ INT_MAX

/-- The range of `std::ptrdiff_t`. -/
def IsLong (z : Int) : Prop := -9223372036854775808 ≤ z ∧ z ≤ 9223372036854775807

instance (z : Int) : Decidable (IsInt z) := inferInstanceAs (Decidable (_ ∧ _))

instance (z : Int) : Decidable (IsLong z) := inferInstanceAs (Decidable (_ ∧ _))

/-! ## Outcomes -/

/-- The ways a call can fail to return. -/
inductive Error where
  /-- The exception `std::invalid_argument`. -/
  | invalidArgument
  /-- The exception `std::out_of_range`. -/
  | outOfRange
  /-- The exception `std::length_error`, thrown by the `std::vector` constructor when the
  requested size exceeds `max_size()`. -/
  | lengthError
  /-- The exception `std::runtime_error`. -/
  | runtimeError
  /-- No exception: the execution has undefined behaviour. -/
  | undefinedBehavior
  deriving DecidableEq, Repr

deriving instance DecidableEq for Except

/-! ## The buffer -/

/-- The expression `data_[i]` as a reference: the position `i`, defined only inside the buffer
(`std::vector::operator[]` does not check). -/
def vectorIndex (data : List Char) (i : Nat) : Except Error Nat :=
  if i < data.length then .ok i else .error .undefinedBehavior

/-- The expression `data_[i]` as a value. -/
def vectorRead (data : List Char) (i : Nat) : Except Error Char :=
  match data[i]? with
  | some v => .ok v
  | none => .error .undefinedBehavior

/-- The constructor `std::vector<char>(n, value)`: a request above `max_size()` throws
`std::length_error`; the allocation of a smaller buffer is taken to succeed. -/
def vectorFill (n : Nat) (value : Char) : Except Error (List Char) :=
  if n > vectorMaxSize then .error .lengthError else .ok (List.replicate n value)

/-! ## Canvas -/

/-- The data members of `plotter::Canvas`. -/
structure Canvas where
  /-- Member `int width_`. -/
  width_ : Int
  /-- Member `int height_`. -/
  height_ : Int
  /-- Member `char background_`. -/
  background_ : Char
  /-- Member `data_`, the row-major buffer. -/
  data_ : List Char
  deriving DecidableEq, Repr

/-- The constructor `Canvas::Canvas(int width, int height, char background_char)`: the member
initialisers run first (among them the allocation of `data_` with `width * height` elements,
the `int` product converted to `size_t`), then the body checks the dimensions. -/
def Canvas.new (width height : Int) (background_char : Char) : Except Error Canvas :=
  match vectorFill (toSizeT (wrapInt (width * height))) background_char with
  | .error e => .error e
  | .ok data =>
    if width ≤ 0 ∨ height ≤ 0 then .error .invalidArgument
    else .ok ⟨width, height, background_char, data⟩

/-- The accessor `Canvas::Width`. -/
def Canvas.Width (c : Canvas) : Int := c.width_

/-- The accessor `Canvas::Height`. -/
def Canvas.Height (c : Canvas) : Int := c.height_

/-- The accessor `Canvas::Size`: the `int` product `width_ * height_`. -/
def Canvas.Size (c : Canvas) : Int := wrapInt (c.width_ * c.height_)

/-- The predicate `Canvas::InBounds`. -/
def Canvas.InBounds (c : Canvas) (x y : Int) : Bool :=
  decide (x ≥ 0) && decide (x < c.width_) && decide (y ≥ 0) && decide (y < c.height_)

/-- The subscript `y * width_ + x` of the source, computed in `int` and converted to the
`size_t` that `std::vector::operator[]` takes. -/
def Canvas.offset (c : Canvas) (x y : Int) : Nat :=
  toSizeT (wrapInt (wrapInt (y * c.width_) + x))

/-- The checked accessor `Canvas::at`: the reference to the cell, or `std::out_of_range`. -/
def Canvas.at (c : Canvas) (x y : Int) : Except Error Nat :=
  if !c.InBounds x y then .error .outOfRange
  else vectorIndex c.data_ (c.offset x y)

/-- The unchecked accessor `Canvas::operator()`. -/
def Canvas.operator_call (c : Canvas) (x y : Int) : Except Error Nat :=
  vectorIndex c.data_ (c.offset x y)

/-- Reading through a reference into the buffer. -/
def Canvas.load (c : Canvas) (r : Nat) : Option Char := c.data_[r]?

/-- Writing through a reference into the buffer. -/
def Canvas.store (c : Canvas) (r : Nat) (v : Char) : Canvas :=
  ⟨c.width_, c.height_, c.background_, c.data_.set r v⟩

/-- The value of `at(x, y)` used as an rvalue: the checked access followed by a read. -/
def Canvas.atValue (c : Canvas) (x y : Int) : Except Error Char :=
  match c.at x y with
  | .error e => .error e
  | .ok r => vectorRead c.data_ r

/-- The method `Canvas::Clear`: `std::fill` over the whole buffer, then the background. -/
def Canvas.Clear (c : Canvas) (fill_char : Char) : Canvas :=
  ⟨c.width_, c.height_, fill_char, c.data_.map (fun _ => fill_char)⟩

/-- Number of times the body of `for (int i = lo; i <= hi; ++i)` runs: `hi - lo + 1` times
when `lo ≤ hi`, never otherwise.  (In `FillRegion` the bound `hi` is a minimum with
`width_ - 1` or `height_ - 1`, so `++i` stays in `int` on every canvas with a dimension above
`INT_MIN`.) -/
def loopCount (lo hi : Int) : Nat := (hi + 1 - lo).toNat

/-- The inner loop of `Canvas::FillRegion`,
`for (int x = x1; x <= x2; ++x) data_[y * width_ + x] = fill_char;`,
with `n` iterations left and the loop variable at `x`. -/
def Canvas.fillCols (fill_char : Char) (y : Int) : Nat → Int → Canvas → Except Error Canvas
  | 0, _, c => .ok c
  | n + 1, x, c =>
    match vectorIndex c.data_ (c.offset x y) with
    | .error e => .error e
    | .ok r => Canvas.fillCols fill_char y n (x + 1) (c.store r fill_char)

/-- The outer loop of `Canvas::FillRegion`, `for (int y = y1; y <= y2; ++y)` around the inner
loop over `x1 .. x2`, with `n` iterations left and the loop variable at `y`. -/
def Canvas.fillRows (fill_char : Char) (x1 x2 : Int) : Nat → Int → Canvas → Except Error Canvas
  | 0, _, c => .ok c
  | n + 1, y, c =>
    match Canvas.fillCols fill_char y (loopCount x1 x2) x1 c with
    | .error e => .error e
    | .ok c1 => Canvas.fillRows fill_char x1 x2 n (y + 1) c1

/-- The method `Canvas::FillRegion`: the two `std::swap`s, the four clamps, the two loops. -/
def Canvas.FillRegion (c : Canvas) (x1 y1 x2 y2 : Int) (fill_char : Char) :
    Except Error Canvas :=
  let xa := if x1 > x2 then x2 else x1
  let xb := if x1 > x2 then x1 else x2
  let ya := if y1 > y2 then y2 else y1
  let yb := if y1 > y2 then y1 else y2
  let xa := max 0 xa
  let ya := max 0 ya
  let xb := min (wrapInt (c.width_ - 1)) xb
  let yb := min (wrapInt (c.height_ - 1)) yb
  Canvas.fillRows fill_char xa xb (loopCount ya yb) ya c

/-- The inner loop of `Canvas::Render`,
`for (int x = 0; x < width_; ++x) os << data_[y * width_ + x];`,
with `n` iterations left, the loop variable at `x` and `os` the characters written so far. -/
def Canvas.renderCols (c : Canvas) (y : Int) : Nat → Int → List Char → Except Error (List Char)
  | 0, _, os => .ok os
  | n + 1, x, os =>
    match vectorRead c.data_ (c.offset x y) with
    | .error e => .error e
    | .ok v => Canvas.renderCols c y n (x + 1) (os ++ [v])

/-- The outer loop of `Canvas::Render`, `for (int y = 0; y < height_; ++y)`: one row, then
the newline. -/
def Canvas.renderRows (c : Canvas) : Nat → Int → List Char → Except Error (List Char)
  | 0, _, os => .ok os
  | n + 1, y, os =>
    match Canvas.renderCols c y c.width_.toNat 0 os with
    | .error e => .error e
    | .ok os1 => Canvas.renderRows c n (y + 1) (os1 ++ ['\n'])

/-- The method `Canvas::Render`: the characters of the stream `os` after the call (the final
`flush` adds none).  The method is `const`: the canvas is an argument only. -/
def Canvas.Render (c : Canvas) (os : List Char) : Except Error (List Char) :=
  Canvas.renderRows c c.height_.toNat 0 os

/-! ## Iterators -/

/-- The data members of `Canvas::RowIterator`. -/
structure RowIterator where
  /-- Member `Canvas *canvas_`. -/
  canvas_ : Nat
  /-- Member `int row_`, the fixed row. -/
  row_ : Int
  /-- Member `int col_`, the position. -/
  col_ : Int
  deriving DecidableEq, Repr

/-- The data members of `Canvas::ColumnIterator`. -/
structure ColumnIterator where
  /-- Member `Canvas *canvas_`. -/
  canvas_ : Nat
  /-- Member `int col_`, the fixed column. -/
  col_ : Int
  /-- Member `int row_`, the position. -/
  row_ : Int
  deriving DecidableEq, Repr

/-- The data members of `Canvas::PixelIterator`. -/
structure PixelIterator where
  /-- Member `Canvas *canvas_`. -/
  canvas_ : Nat
  /-- Member `size_t pos_`, the position. -/
  pos_ : Nat
  deriving DecidableEq, Repr

/-- The operator `RowIterator::operator*` on the canvas `c` that `canvas_` points to. -/
def RowIterator.operator_star (it : RowIterator) (c : Canvas) : Except Error Nat :=
  c.at it.col_ it.row_

/-- The operator `RowIterator::operator[]`: `col_ + n` is a `difference_type` sum, narrowed to
the `int` parameter of `at`. -/
def RowIterator.operator_index (it : RowIterator) (c : Canvas) (n : Int) : Except Error Nat :=
  c.at (wrapInt (wrapLong (it.col_ + n))) it.row_

/-- The operator `RowIterator::operator++()`. -/
def RowIterator.operator_inc (it : RowIterator) : RowIterator :=
  ⟨it.canvas_, it.row_, wrapInt (it.col_ + 1)⟩

/-- The operator `RowIterator::operator+(difference_type)`. -/
def RowIterator.operator_plus (it : RowIterator) (n : Int) : RowIterator :=
  ⟨it.canvas_, it.row_, wrapInt (wrapLong (it.col_ + n))⟩

/-- The operator `RowIterator::operator==`. -/
def RowIterator.operator_eq (a b : RowIterator) : Bool :=
  decide (a.canvas_ = b.canvas_) && decide (a.row_ = b.row_) && decide (a.col_ = b.col_)

/-- The operator `ColumnIterator::operator*` on the canvas `c` that `canvas_` points to. -/
def ColumnIterator.operator_star (it : ColumnIterator) (c : Canvas) : Except Error Nat :=
  c.at it.col_ it.row_

/-- The operator `ColumnIterator::operator[]`. -/
def ColumnIterator.operator_index (it : ColumnIterator) (c : Canvas) (n : Int) :
    Except Error Nat :=
  c.at it.col_ (wrapInt (wrapLong (it.row_ + n)))

/-- The operator `ColumnIterator::operator++()`. -/
def ColumnIterator.operator_inc (it : ColumnIterator) : ColumnIterator :=
  ⟨it.canvas_, it.col_, wrapInt (it.row_ + 1)⟩

/-- The operator `ColumnIterator::operator+(difference_type)`. -/
def ColumnIterator.operator_plus (it : ColumnIterator) (n : Int) : ColumnIterator :=
  ⟨it.canvas_, it.col_, wrapInt (wrapLong (it.row_ + n))⟩

/-- The operator `ColumnIterator::operator==`. -/
def ColumnIterator.operator_eq (a b : ColumnIterator) : Bool :=
  decide (a.canvas_ = b.canvas_) && decide (a.col_ = b.col_) && decide (a.row_ = b.row_)

/-- The coordinates `pos % canvas_->Width()` and `pos / canvas_->Width()` of the pixel
iterator: `Width()` is converted to `size_t` for the two operations, whose results are narrowed
to `int`; a zero divisor has no defined behaviour. -/
def PixelIterator.coords (c : Canvas) (pos : Nat) : Except Error (Int × Int) :=
  if toSizeT c.Width = 0 then .error .undefinedBehavior
  else .ok (wrapInt (pos % toSizeT c.Width : Nat), wrapInt (pos / toSizeT c.Width : Nat))

/-- The operator `PixelIterator::operator*` on the canvas `c` that `canvas_` points to. -/
def PixelIterator.operator_star (it : PixelIterator) (c : Canvas) : Except Error Nat :=
  match PixelIterator.coords c it.pos_ with
  | .error e => .error e
  | .ok (x, y) => c.at x y

/-- The operator `PixelIterator::operator[]`: `new_pos = pos_ + n` in `size_t`. -/
def PixelIterator.operator_index (it : PixelIterator) (c : Canvas) (n : Int) :
    Except Error Nat :=
  match PixelIterator.coords c ((it.pos_ + toSizeT n) % 18446744073709551616) with
  | .error e => .error e
  | .ok (x, y) => c.at x y

/-- The operator `PixelIterator::operator++()`. -/
def PixelIterator.operator_inc (it : PixelIterator) : PixelIterator :=
  ⟨it.canvas_, (it.pos_ + 1) % 18446744073709551616⟩

/-- The operator `PixelIterator::operator+(difference_type)`. -/
def PixelIterator.operator_plus (it : PixelIterator) (n : Int) : PixelIterator :=
  ⟨it.canvas_, (it.pos_ + toSizeT n) % 18446744073709551616⟩

/-- The operator `PixelIterator::operator==`. -/
def PixelIterator.operator_eq (a b : PixelIterator) : Bool :=
  decide (a.canvas_ = b.canvas_) && decide (a.pos_ = b.pos_)

/-- The factory `Canvas::RowBegin`; `this` is the address of the canvas. -/
def Canvas.RowBegin (this : Nat) (row : Int) : RowIterator := ⟨this, row, 0⟩

/-- The factory `Canvas::RowEnd`. -/
def Canvas.RowEnd (this : Nat) (c : Canvas) (row : Int) : RowIterator := ⟨this, row, c.width_⟩

/-- The factory `Canvas::ColBegin`. -/
def Canvas.ColBegin (this : Nat) (col : Int) : ColumnIterator := ⟨this, col, 0⟩

/-- The factory `Canvas::ColEnd`. -/
def Canvas.ColEnd (this : Nat) (c : Canvas) (col : Int) : ColumnIterator :=
  ⟨this, col, c.height_⟩

/-- The factory `Canvas::begin`. -/
def Canvas.begin (this : Nat) : PixelIterator := ⟨this, 0⟩

/-- The factory `Canvas::end`: the `int` value `Size()` converted to `size_t`. -/
def Canvas.end (this : Nat) (c : Canvas) : PixelIterator := ⟨this, toSizeT c.Size⟩

/-- The traversal `for (it = first; it != last; ++it) visit(*it);` of an iterator family given
by its `operator==`, `operator++` and `operator*`: the references visited, in order.  The loop
is run for at most `fuel` tests of `it != last`; `none` when they do not suffice. -/
def traverse {ι : Type} (eq : ι → ι → Bool) (inc : ι → ι) (star : ι → Except Error Nat)
    (last : ι) : Nat → ι → List Nat → Option (Except Error (List Nat))
  | 0, _, _ => none
  | fuel + 1, it, seen =>
    if eq it last then some (.ok seen)
    else
      match star it with
      | .error e => some (.error e)
      | .ok r => traverse eq inc star last fuel (inc it) (seen ++ [r])

/-! ## Iterator arithmetic and comparison -/

/-- The operator `RowIterator::operator->`: the address of the cell `at(col_, row_)`. -/
def RowIterator.operator_arrow (it : RowIterator) (c : Canvas) : Except Error Nat :=
  c.at it.col_ it.row_

/-- The operator `RowIterator::operator-(difference_type)`. -/
def RowIterator.operator_minus (it : RowIterator) (n : Int) : RowIterator :=
  ⟨it.canvas_, it.row_, wrapInt (wrapLong (it.col_ - n))⟩

/-- The operator `RowIterator::operator-(const RowIterator &)`: the `int` difference of the
positions, returned as a `difference_type`. -/
def RowIterator.operator_diff (a b : RowIterator) : Int := wrapInt (a.col_ - b.col_)

/-- The operator `RowIterator::operator<`. -/
def RowIterator.operator_lt (a b : RowIterator) : Bool := decide (a.col_ < b.col_)

/-- The operator `ColumnIterator::operator->`. -/
def ColumnIterator.operator_arrow (it : ColumnIterator) (c : Canvas) : Except Error Nat :=
  c.at it.col_ it.row_

/-- The operator `ColumnIterator::operator-(difference_type)`. -/
def ColumnIterator.operator_minus (it : ColumnIterator) (n : Int) : ColumnIterator :=
  ⟨it.canvas_, it.col_, wrapInt (wrapLong (it.row_ - n))⟩

/-- The operator `ColumnIterator::operator-(const ColumnIterator &)`. -/
def ColumnIterator.operator_diff (a b : ColumnIterator) : Int := wrapInt (a.row_ - b.row_)

/-- The operator `ColumnIterator::operator<`. -/
def ColumnIterator.operator_lt (a b : ColumnIterator) : Bool := decide (a.row_ < b.row_)

/-- The operator `PixelIterator::operator->`. -/
def PixelIterator.operator_arrow (it : PixelIterator) (c : Canvas) : Except Error Nat :=
  match PixelIterator.coords c it.pos_ with
  | .error e => .error e
  | .ok (x, y) => c.at x y

/-- The operator `PixelIterator::operator-(difference_type)`: `pos_ - n` in `size_t`. -/
def PixelIterator.operator_minus (it : PixelIterator) (n : Int) : PixelIterator :=
  ⟨it.canvas_, (it.pos_ + 18446744073709551616 - toSizeT n) % 18446744073709551616⟩

/-- The operator `PixelIterator::operator-(const PixelIterator &)`: the `size_t` difference
`pos_ - other.pos_`, converted to the signed `difference_type`. -/
def PixelIterator.operator_diff (a b : PixelIterator) : Int :=
  wrapLong (((a.pos_ : Int) - (b.pos_ : Int)) % 18446744073709551616)

/-- The operator `PixelIterator::operator<`. -/
def PixelIterator.operator_lt (a b : PixelIterator) : Bool := decide (a.pos_ < b.pos_)

/-! ## Copy and move -/

/-- The move constructor `Canvas::Canvas(Canvas &&other)`: the new canvas, and `other` after
the call.  The `std::vector` that was moved from is empty. -/
def Canvas.moveNew (other : Canvas) : Canvas × Canvas :=
  (⟨other.width_, other.height_, other.background_, other.data_⟩,
    ⟨0, 0, other.background_, []⟩)

/-- The copy assignment `Canvas::operator=(const Canvas &other)`; `this` and `that` are the
addresses of `*this` and of `other`, `self` and `other` the two objects. -/
def Canvas.operator_assign (this that : Nat) (self other : Canvas) : Canvas :=
  if this ≠ that then ⟨other.width_, other.height_, other.background_, other.data_⟩ else self

/-- The move assignment `Canvas::operator=(Canvas &&other)`: `*this` and `other` after the
call.  The `std::vector` that was moved from is empty. -/
def Canvas.operator_move_assign (this that : Nat) (self other : Canvas) : Canvas × Canvas :=
  if this ≠ that then
    (⟨other.width_, other.height_, other.background_, other.data_⟩,
      ⟨0, 0, other.background_, []⟩)
  else (self, other)

/-! ## Saving -/

/-- The characters `operator<<` writes for an `int`: its decimal digits, after a minus sign
when it is negative. -/
def intDecimal (z : Int) : List Char := (toString z).toList

/-- The number that a string of decimal digits denotes. -/
def decimalValue (digits : List Char) : Nat :=
  digits.foldl (fun acc ch => 10 * acc + (ch.toNat - 48)) 0

/-- The method `Canvas::SaveToFile`.  Of the file system only the outcome of opening the
`std::ofstream` is kept (`opened`); the result is the text of the file, which the open
truncates: the three header lines, then what `Render` writes. -/
def Canvas.SaveToFile (c : Canvas) (opened : Bool) : Except Error (List Char) :=
  if !opened then .error .runtimeError
  else
    let file := "Canvas ".toList ++ intDecimal c.width_ ++ "x".toList ++ intDecimal c.height_
      ++ ['\n']
    let file := file ++ "Background: ".toList ++ "'".toList ++ [c.background_] ++ "'".toList
      ++ ['\n']
    let file := file ++ "Content:".toList ++ ['\n']
    c.Render file

/-! ## Configuration -/

/-- The record `plotter::PlotterConfig` of `src/Config.hpp`. -/
structure PlotterConfig where
  /-- Member `int width`. -/
  width : Int
  /-- Member `int height`. -/
  height : Int
  /-- Member `char background_char`. -/
  background_char : Char
  /-- Member `std::vector<char> palette`. -/
  palette : List Char
  /-- Member `std::string plotter_type`. -/
  plotter_type : String
  deriving DecidableEq, Repr

/-- Modelled from the spec: the header `json.h` (`Load`, `Document::GetRoot`, `Node::AsMap`,
`Node::AsInt`, `Node::AsString`) is not among the sources.  The parsed root object is taken as
the configuration input of the spec describes it: a JSON object in which the keys `width` and
`height`, when present, hold integers and the keys `background_char`, `palette` and
`plotter_type`, when present, hold strings.  A field is `none` when `root.find` does not find
the key. -/
structure JsonRoot where
  /-- The value of `root.find("width")->second.AsInt()`. -/
  width : Option Int
  /-- The value of `root.find("height")->second.AsInt()`. -/
  height : Option Int
  /-- The value of `root.find("background_char")->second.AsString()`. -/
  background_char : Option String
  /-- The value of `root.find("palette")->second.AsString()`. -/
  palette : Option String
  /-- The value of `root.find("plotter_type")->second.AsString()`. -/
  plotter_type : Option String
  deriving DecidableEq, Repr

/-- The function `Config::ParsePalette`: one `push_back` for each character of the string. -/
def Config.ParsePalette (palette_str : String) : List Char :=
  palette_str.toList.foldl (fun palette c => palette ++ [c]) []

/-- The function `Config::ValidateConfig`. -/
def Config.ValidateConfig (config : PlotterConfig) : Bool :=
  if config.width ≤ 0 ∨ config.height ≤ 0 then false
  else if config.plotter_type ≠ "basic" ∧ config.plotter_type ≠ "grayscale" then false
  else if !config.palette.isEmpty && decide (config.palette.length < 2) then false
  else true

/-- The function `Config::LoadFromString`, from the parsed root object on; every failure of the
source is a `std::runtime_error`.  The record starts default-initialised: an empty palette. -/
def Config.LoadFromString (root : JsonRoot) : Except Error PlotterConfig :=
  match root.width with
  | none => .error .runtimeError
  | some width =>
    match root.height with
    | none => .error .runtimeError
    | some height =>
      match root.background_char with
      | none => .error .runtimeError
      | some bg =>
        let background_char :=
          match bg.toList with
          | [] => ' '
          | ch :: _ => ch
        let palette :=
          match root.palette with
          | some palette_str => Config.ParsePalette palette_str
          | none => []
        let plotter_type :=
          match root.plotter_type with
          | some s => s
          | none => "basic"
        let config : PlotterConfig := ⟨width, height, background_char, palette, plotter_type⟩
        if !Config.ValidateConfig config then .error .runtimeError else .ok config

/-- The predicate of the data model on its own: the buffer holds `width_ * height_` cells. -/
def Canvas.SizeInvariant (c : Canvas) : Prop := (c.data_.length : Int) = c.width_ * c.height_

instance (c : Canvas) : Decidable c.SizeInvariant := inferInstanceAs (Decidable (_ = _))

/-- The invariant of the data model: the dimensions are non-negative `int`s (positive after
construction, zero after a move), the buffer holds `width_ * height_` cells, and that product
is an `int`.  The constructor establishes it when `width * height ≤ INT_MAX`, and the
mutations keep it; for larger products the constructor returns canvases without it. -/
def Canvas.Valid (c : Canvas) : Prop :=
  0 ≤ c.width_ ∧ 0 ≤ c.height_ ∧ c.width_ ≤ INT_MAX ∧ c.height_ ≤ INT_MAX ∧
    c.width_ * c.height_ ≤ INT_MAX ∧ (c.data_.length : Int) = c.width_ * c.height_

instance (c : Canvas) : Decidable c.Valid := inferInstanceAs (Decidable (_ ∧ _))

/-- The text of `n` consecutive lines of a buffer of row width `w`, the first line starting at
buffer position `p`: for each line its `w` cells, then a newline. -/
def linesOf (w : Nat) (data : List Char) : Nat → Nat → List Char
  | 0, _ => []
  | n + 1, p => (data.drop p).take w ++ '\n' :: linesOf w data n (p + w)

/-- A text of `n` lines of `w` characters and one terminator each, without the terminators. -/
def dropLineEnds (w : Nat) : Nat → List Char → List Char
  | 0, _ => []
  | n + 1, out => out.take w ++ dropLineEnds w n (out.drop (w + 1))

/-! ## Machine arithmetic inside the ranges -/

theorem wrapInt_of_isInt {z : Int} (h : IsInt z) : wrapInt z = z := by
  unfold IsInt INT_MIN INT_MAX at h
  unfold wrapInt
  omega

theorem wrapLong_of_isLong {z : Int} (h : IsLong z) : wrapLong z = z := by
  unfold IsLong at h
  unfold wrapLong
  omega

theorem toSizeT_of_nonneg {z : Int} (h0 : 0 ≤ z) (h1 : z ≤ INT_MAX) : toSizeT z = z.toNat := by
  unfold INT_MAX at h1
  unfold toSizeT
  rw [Int.emod_eq_of_lt h0 (by omega)]

theorem isInt_of_bounds {z : Int} (h0 : 0 ≤ z) (h1 : z ≤ INT_MAX) : IsInt z := by
  unfold IsInt INT_MIN
  exact ⟨by omega, h1⟩

/-- Row-major positions of in-bounds coordinates stay below the product of the dimensions. -/
theorem rowMajor_lt {w h x y : Int} (hx0 : 0 ≤ x) (hxw : x < w) (hy0 : 0 ≤ y) (hyh : y < h) :
    0 ≤ y * w ∧ 0 ≤ y * w + x ∧ y * w + x < w * h := by
  have hw : 0 ≤ w := by omega
  have h1 : 0 ≤ y * w := mul_nonneg hy0 hw
  have h2 : (y + 1) * w ≤ h * w := mul_le_mul_of_nonneg_right (by omega) hw
  have h3 : (y + 1) * w = y * w + w := by ring
  have h4 : h * w = w * h := by ring
  refine ⟨h1, by omega, by omega⟩

/-- On a valid canvas the subscript of an in-bounds coordinate is computed without overflow. -/
theorem Canvas.offset_eq {c : Canvas} (hv : c.Valid) {x y : Int}
    (hx0 : 0 ≤ x) (hxw : x < c.width_) (hy0 : 0 ≤ y) (hyh : y < c.height_) :
    c.offset x y = (y * c.width_ + x).toNat ∧ (y * c.width_ + x).toNat < c.data_.length := by
  obtain ⟨_, _, _, _, hs, hl⟩ := hv
  obtain ⟨h1, h2, h3⟩ := rowMajor_lt hx0 hxw hy0 hyh
  have hyw : y * c.width_ ≤ INT_MAX := by omega
  have hsum : y * c.width_ + x ≤ INT_MAX := by omega
  unfold Canvas.offset
  rw [wrapInt_of_isInt (isInt_of_bounds h1 hyw), wrapInt_of_isInt (isInt_of_bounds h2 hsum),
    toSizeT_of_nonneg h2 hsum]
  exact ⟨rfl, by omega⟩

theorem Canvas.inBounds_iff (c : Canvas) (x y : Int) :
    c.InBounds x y = true ↔ 0 ≤ x ∧ x < c.width_ ∧ 0 ≤ y ∧ y < c.height_ := by
  simp [Canvas.InBounds, and_assoc]

/-- The checked accessor on a valid canvas, at in-bounds coordinates. -/
theorem Canvas.at_of_inBounds {c : Canvas} (hv : c.Valid) {x y : Int}
    (hx0 : 0 ≤ x) (hxw : x < c.width_) (hy0 : 0 ≤ y) (hyh : y < c.height_) :
    c.at x y = .ok (y * c.width_ + x).toNat := by
  obtain ⟨ho, hlt⟩ := Canvas.offset_eq hv hx0 hxw hy0 hyh
  have hb : c.InBounds x y = true := (Canvas.inBounds_iff c x y).2 ⟨hx0, hxw, hy0, hyh⟩
  simp [Canvas.at, hb, vectorIndex, ho, hlt]

/-- The checked accessor outside the bounds. -/
theorem Canvas.at_of_not_inBounds {c : Canvas} {x y : Int}
    (h : x < 0 ∨ x ≥ c.width_ ∨ y < 0 ∨ y ≥ c.height_) : c.at x y = .error .outOfRange := by
  have hb : c.InBounds x y = false := by
    rw [Bool.eq_false_iff, Ne, Canvas.inBounds_iff]
    omega
  simp [Canvas.at, hb]

/-- A successful construction with an `int` product establishes the invariant. -/
theorem Canvas.new_eq {w h : Int} (b : Char) (hw : 0 < w) (hh : 0 < h)
    (hs : w * h ≤ INT_MAX) :
    Canvas.new w h b = .ok ⟨w, h, b, List.replicate (w * h).toNat b⟩ := by
  have hp : 0 ≤ w * h := mul_nonneg (by omega) (by omega)
  have hn : ¬ (w * h).toNat > vectorMaxSize := by
    unfold INT_MAX at hs
    unfold vectorMaxSize
    omega
  have hd : ¬ (w ≤ 0 ∨ h ≤ 0) := by omega
  simp only [Canvas.new, wrapInt_of_isInt (isInt_of_bounds hp hs), toSizeT_of_nonneg hp hs,
    vectorFill, if_neg hn, if_neg hd]

theorem Canvas.valid_replicate {w h : Int} (b : Char) (hw : 0 < w) (hh : 0 < h)
    (hs : w * h ≤ INT_MAX) : (Canvas.mk w h b (List.replicate (w * h).toNat b)).Valid := by
  have hp : 0 ≤ w * h := mul_nonneg (by omega) (by omega)
  have h1 : w ≤ w * h := by nlinarith
  have h2 : h ≤ w * h := by nlinarith
  refine ⟨by simp; omega, by simp; omega, by simp; omega, by simp; omega, hs, ?_⟩
  simp [Int.toNat_of_nonneg hp]

/-! ## Construction -/

/-- C1 (as amended): for positive `w`, `h` whose product is an `int`, the constructor returns
a canvas with `Width() == w`, `Height() == h`, `Size() == w*h` and `at(x, y) == b` at every
in-bounds coordinate. -/
theorem C1_new_positive (w h : Int) (b : Char) (hw : 0 < w) (hh : 0 < h)
    (hs : w * h ≤ INT_MAX) :
    ∃ c, Canvas.new w h b = .ok c ∧ c.Width = w ∧ c.Height = h ∧ c.Size = w * h ∧
      ∀ x y, 0 ≤ x → x < w → 0 ≤ y → y < h → c.atValue x y = .ok b := by
  have hp : 0 ≤ w * h := mul_nonneg (by omega) (by omega)
  refine ⟨_, Canvas.new_eq b hw hh hs, rfl, rfl, ?_, ?_⟩
  · exact wrapInt_of_isInt (isInt_of_bounds hp hs)
  · intro x y hx0 hxw hy0 hyh
    have hv := Canvas.valid_replicate b hw hh hs
    have hat := Canvas.at_of_inBounds hv hx0 hxw hy0 hyh
    obtain ⟨_, hlt⟩ := Canvas.offset_eq hv hx0 hxw hy0 hyh
    simp only [List.length_replicate] at hlt
    simp only [Canvas.atValue, hat, vectorRead]
    simp [List.getElem?_replicate, hlt]

/-- Witness of C1 at `Canvas(3, 2, '.')`. -/
theorem C1_new_positive_witness :
    ((0 : Int) < 3 ∧ (0 : Int) < 2 ∧ (3 : Int) * 2 ≤ INT_MAX) ∧
    ∃ c, Canvas.new 3 2 '.' = .ok c ∧ c.Width = 3 ∧ c.Height = 2 ∧ c.Size = 3 * 2 ∧
      ∀ x y, 0 ≤ x → x < 3 → 0 ≤ y → y < 2 → c.atValue x y = .ok '.' :=
  ⟨by decide, C1_new_positive 3 2 '.' (by decide) (by decide) (by decide)⟩

/-- C1 fails as stated at `Canvas(65536, 65536, 'x')`: the `int` product `width * height` is
`0`, the constructor returns a canvas with an empty buffer, `Size()` is `0` and not
`65536 * 65536`, and `at(0, 0)` has no cell to return. -/
theorem C1_counterexample_overflow :
    Canvas.new 65536 65536 'x' = .ok ⟨65536, 65536, 'x', []⟩ ∧
    ¬ ∃ c, Canvas.new 65536 65536 'x' = .ok c ∧ c.Width = 65536 ∧ c.Height = 65536 ∧
      c.Size = 65536 * 65536 ∧
      ∀ x y, 0 ≤ x → x < 65536 → 0 ≤ y → y < 65536 → c.atValue x y = .ok 'x' := by
  have h : Canvas.new 65536 65536 'x' = .ok ⟨65536, 65536, 'x', []⟩ := by decide
  refine ⟨h, ?_⟩
  rintro ⟨c, hc, _, _, hsz, _⟩
  rw [h] at hc
  cases hc
  revert hsz
  decide

/-- With a non-positive dimension the constructor never returns a canvas: it throws
`std::invalid_argument` from its body, or `std::length_error` from the allocation before. -/
theorem Canvas.new_nonpositive (w h : Int) (b : Char) (hd : w ≤ 0 ∨ h ≤ 0) :
    Canvas.new w h b = .error .invalidArgument ∨ Canvas.new w h b = .error .lengthError := by
  unfold Canvas.new vectorFill
  by_cases hn : toSizeT (wrapInt (w * h)) > vectorMaxSize
  · right
    simp only [if_pos hn]
  · left
    simp only [if_neg hn, if_pos hd]

/-- C2 fails on the code at `Canvas(-1, 5, ' ')`: the buffer is allocated from the member
initialiser list with `(size_t)(-5)` elements before the body tests the dimensions, so the
construction ends with `std::length_error` and not with `std::invalid_argument`. -/
theorem C2_new_negative_width_length_error :
    Canvas.new (-1) 5 ' ' = .error .lengthError ∧
    Canvas.new (-1) 5 ' ' ≠ .error .invalidArgument := by
  decide

/-! ## Checked access -/

/-- C3 (as amended): on a canvas of width `w` and height `h` that satisfies the invariant
`Valid` (`buffer.length == w*h ≤ INT_MAX`), `at(x, y)` throws `std::out_of_range` exactly
when `x < 0 ∨ x ≥ w ∨ y < 0 ∨ y ≥ h`; otherwise it returns the buffer cell at row-major
position `y*w + x`; `InBounds(x, y)` is true exactly when `at(x, y)` returns. -/
theorem C3_at_checked (c : Canvas) (hv : c.Valid) (x y : Int) :
    (c.at x y = .error .outOfRange ↔ x < 0 ∨ x ≥ c.Width ∨ y < 0 ∨ y ≥ c.Height) ∧
    (¬ (x < 0 ∨ x ≥ c.Width ∨ y < 0 ∨ y ≥ c.Height) →
      c.at x y = .ok (y * c.Width + x).toNat ∧
      (y * c.Width + x).toNat < c.data_.length ∧
      c.atValue x y = vectorRead c.data_ (y * c.Width + x).toNat ∧
      ∃ v, c.atValue x y = .ok v) ∧
    (c.InBounds x y = true ↔ ∃ r, c.at x y = .ok r) := by
  unfold Canvas.Width Canvas.Height
  by_cases hb : x < 0 ∨ x ≥ c.width_ ∨ y < 0 ∨ y ≥ c.height_
  · have hat := Canvas.at_of_not_inBounds hb
    refine ⟨by simp [hat, hb], fun hn => absurd hb hn, ?_⟩
    rw [Canvas.inBounds_iff, hat]
    constructor
    · intro h
      omega
    · rintro ⟨r, hr⟩
      cases hr
  · have hx0 : 0 ≤ x := by omega
    have hxw : x < c.width_ := by omega
    have hy0 : 0 ≤ y := by omega
    have hyh : y < c.height_ := by omega
    have hat := Canvas.at_of_inBounds hv hx0 hxw hy0 hyh
    obtain ⟨_, hlt⟩ := Canvas.offset_eq hv hx0 hxw hy0 hyh
    refine ⟨by simp [hat, hb], fun _ => ⟨hat, hlt, ?_, ?_⟩, ?_⟩
    · simp [Canvas.atValue, hat]
    · simp [Canvas.atValue, hat, vectorRead, List.getElem?_eq_getElem hlt]
    · rw [Canvas.inBounds_iff]
      exact ⟨fun _ => ⟨_, hat⟩, fun _ => ⟨hx0, hxw, hy0, hyh⟩⟩

/-- Witness of C3 on a 3×2 canvas at the coordinate `(1, 1)`. -/
theorem C3_at_checked_witness :
    (Canvas.mk 3 2 '.' ['a', 'b', 'c', 'd', 'e', 'f']).Valid ∧
    (Canvas.mk 3 2 '.' ['a', 'b', 'c', 'd', 'e', 'f']).at 1 1 = .ok 4 :=
  ⟨by decide,
    ((C3_at_checked ⟨3, 2, '.', ['a', 'b', 'c', 'd', 'e', 'f']⟩ (by decide) 1 1).2.1
      (by decide)).1⟩

/-- C3 fails as stated on the canvas that `Canvas(65536, 65536, 'x')` returns: the `int`
product of its dimensions is `0` and its buffer is empty, so at the coordinate `(0, 0)`, which
is inside the bounds, `InBounds` is true and `at` neither throws nor returns a cell: it
indexes the empty buffer. -/
theorem C3_counterexample_overflow :
    Canvas.new 65536 65536 'x' = .ok ⟨65536, 65536, 'x', []⟩ ∧
    ¬ ((0 : Int) < 0 ∨ (0 : Int) ≥ (Canvas.mk 65536 65536 'x' []).Width ∨ (0 : Int) < 0 ∨
      (0 : Int) ≥ (Canvas.mk 65536 65536 'x' []).Height) ∧
    (Canvas.mk 65536 65536 'x' []).InBounds 0 0 = true ∧
    (Canvas.mk 65536 65536 'x' []).at 0 0 = .error .undefinedBehavior ∧
    (Canvas.mk 65536 65536 'x' []).at 0 0 ≠ .ok 0 := by
  decide

/-! ## Region fill -/

theorem Canvas.valid_set {w h : Int} {bg : Char} {data : List Char}
    (hv : (Canvas.mk w h bg data).Valid) (r : Nat) (v : Char) :
    (Canvas.mk w h bg (data.set r v)).Valid := by
  obtain ⟨h1, h2, h3, h4, h5, h6⟩ := hv
  exact ⟨h1, h2, h3, h4, h5, by simpa using h6⟩

/-- The inner loop of `FillRegion` over `n` columns from `x` in row `y`, by buffer position. -/
theorem Canvas.fillCols_spec (fill : Char) {w h : Int} (bg : Char) {y : Int}
    (hy0 : 0 ≤ y) (hyh : y < h) :
    ∀ (n : Nat) (x : Int) (data : List Char), (Canvas.mk w h bg data).Valid → 0 ≤ x →
      x + n ≤ w →
      ∃ d, Canvas.fillCols fill y n x ⟨w, h, bg, data⟩ = .ok ⟨w, h, bg, d⟩ ∧
        d.length = data.length ∧
        ∀ i : Nat, d[i]? =
          if (y * w + x).toNat ≤ i ∧ i < (y * w + x).toNat + n then some fill else data[i]? := by
  intro n
  induction n with
  | zero =>
    intro x data _ _ _
    refine ⟨data, rfl, rfl, fun i => ?_⟩
    rw [if_neg (by omega)]
  | succ n ih =>
    intro x data hv hx0 hxn
    have hxw : x < w := by push_cast at hxn; omega
    obtain ⟨ho, hlt⟩ := Canvas.offset_eq hv hx0 hxw hy0 hyh
    simp only at ho hlt
    obtain ⟨hyw, hpos, _⟩ := rowMajor_lt hx0 hxw hy0 hyh
    obtain ⟨d, hd, hlen, hget⟩ :=
      ih (x + 1) _ (Canvas.valid_set hv (y * w + x).toNat fill) (by omega)
        (by push_cast at hxn; omega)
    refine ⟨d, ?_, by simpa using hlen, ?_⟩
    · simp only [Canvas.fillCols, vectorIndex, ho, hlt, if_true, Canvas.store]
      exact hd
    · intro i
      have hstep : (y * w + (x + 1)).toNat = (y * w + x).toNat + 1 := by omega
      rw [hget, List.getElem?_set, hstep]
      by_cases h1 : (y * w + x).toNat = i
      · subst h1
        simp [hlt]
      · rw [if_neg h1]
        by_cases h2 : (y * w + x).toNat + 1 ≤ i ∧ i < (y * w + x).toNat + 1 + n
        · rw [if_pos h2, if_pos (by omega)]
        · rw [if_neg h2, if_neg (by omega)]

/-- A row-major position lies in the run of row `y` from column `xa` to column `xb` exactly
when its coordinate does. -/
theorem rowMajor_mem_run {w x' y' y xa xb : Int} (hx0 : 0 ≤ x') (hxw : x' < w)
    (hy0' : 0 ≤ y') (hy0 : 0 ≤ y) (ha : 0 ≤ xa) (hb : xb < w) :
    ((y * w + xa).toNat ≤ (y' * w + x').toNat ∧
      (y' * w + x').toNat < (y * w + xa).toNat + loopCount xa xb) ↔
    (y' = y ∧ xa ≤ x' ∧ x' ≤ xb) := by
  have hw : 0 ≤ w := by omega
  have h1 : 0 ≤ y * w := mul_nonneg hy0 hw
  have h2 : 0 ≤ y' * w := mul_nonneg hy0' hw
  unfold loopCount
  rcases lt_trichotomy y' y with hlt | heq | hgt
  · have h3 : (y' + 1) * w ≤ y * w := mul_le_mul_of_nonneg_right (by omega) hw
    have h4 : (y' + 1) * w = y' * w + w := by ring
    omega
  · subst heq
    omega
  · have h3 : (y + 1) * w ≤ y' * w := mul_le_mul_of_nonneg_right (by omega) hw
    have h4 : (y + 1) * w = y * w + w := by ring
    omega

/-- The inner loop of `FillRegion` over the columns `xa .. xb` of row `y`, by coordinate. -/
theorem Canvas.fillCols_row (fill : Char) {w h : Int} (bg : Char) {y xa xb : Int}
    (hy0 : 0 ≤ y) (hyh : y < h) (ha : 0 ≤ xa) (hb : xb < w) (data : List Char)
    (hv : (Canvas.mk w h bg data).Valid) :
    ∃ d, Canvas.fillCols fill y (loopCount xa xb) xa ⟨w, h, bg, data⟩ = .ok ⟨w, h, bg, d⟩ ∧
      d.length = data.length ∧
      ∀ x' y' : Int, 0 ≤ x' → x' < w → 0 ≤ y' → y' < h →
        d[(y' * w + x').toNat]? =
          if y' = y ∧ xa ≤ x' ∧ x' ≤ xb then some fill else data[(y' * w + x').toNat]? := by
  by_cases hab : xa ≤ xb
  · have hcount : xa + (loopCount xa xb : Nat) ≤ w := by
      unfold loopCount
      omega
    obtain ⟨d, hd, hlen, hget⟩ := Canvas.fillCols_spec fill bg hy0 hyh _ xa data hv ha hcount
    refine ⟨d, hd, hlen, fun x' y' hx0 hxw hy0' _ => ?_⟩
    rw [hget]
    by_cases hc : y' = y ∧ xa ≤ x' ∧ x' ≤ xb
    · rw [if_pos hc, if_pos ((rowMajor_mem_run hx0 hxw hy0' hy0 ha hb).2 hc)]
    · rw [if_neg hc, if_neg (fun hp => hc ((rowMajor_mem_run hx0 hxw hy0' hy0 ha hb).1 hp))]
  · have hzero : loopCount xa xb = 0 := by
      unfold loopCount
      omega
    rw [hzero]
    refine ⟨data, rfl, rfl, fun x' y' _ _ _ _ => ?_⟩
    rw [if_neg (by omega)]

/-- The outer loop of `FillRegion` over `n` rows from `y`, by coordinate. -/
theorem Canvas.fillRows_spec (fill : Char) {w h : Int} (bg : Char) {xa xb : Int}
    (ha : 0 ≤ xa) (hb : xb < w) :
    ∀ (n : Nat) (y : Int) (data : List Char), (Canvas.mk w h bg data).Valid → 0 ≤ y →
      y + n ≤ h →
      ∃ d, Canvas.fillRows fill xa xb n y ⟨w, h, bg, data⟩ = .ok ⟨w, h, bg, d⟩ ∧
        d.length = data.length ∧
        ∀ x' y' : Int, 0 ≤ x' → x' < w → 0 ≤ y' → y' < h →
          d[(y' * w + x').toNat]? =
            if y ≤ y' ∧ y' < y + n ∧ xa ≤ x' ∧ x' ≤ xb then some fill
            else data[(y' * w + x').toNat]? := by
  intro n
  induction n with
  | zero =>
    intro y data _ _ _
    refine ⟨data, rfl, rfl, fun x' y' _ _ _ _ => ?_⟩
    rw [if_neg (by omega)]
  | succ n ih =>
    intro y data hv hy0 hyn
    have hyh : y < h := by push_cast at hyn; omega
    obtain ⟨d1, hd1, hlen1, hget1⟩ := Canvas.fillCols_row fill bg hy0 hyh ha hb data hv
    have hv1 : (Canvas.mk w h bg d1).Valid := by
      obtain ⟨h1, h2, h3, h4, h5, h6⟩ := hv
      exact ⟨h1, h2, h3, h4, h5, by simpa [hlen1] using h6⟩
    obtain ⟨d, hd, hlen, hget⟩ := ih (y + 1) d1 hv1 (by omega) (by push_cast at hyn; omega)
    refine ⟨d, ?_, hlen.trans hlen1, fun x' y' hx0 hxw hy0' hyh' => ?_⟩
    · simp only [Canvas.fillRows, hd1]
      exact hd
    · rw [hget x' y' hx0 hxw hy0' hyh', hget1 x' y' hx0 hxw hy0' hyh']
      by_cases h1 : y' = y
      · subst h1
        by_cases h2 : xa ≤ x' ∧ x' ≤ xb
        · rw [if_neg (by omega), if_pos ⟨rfl, h2⟩, if_pos (by push_cast; omega)]
        · rw [if_neg (by omega), if_neg (by omega), if_neg (by omega)]
      · by_cases h2 : y + 1 ≤ y' ∧ y' < y + 1 + n ∧ xa ≤ x' ∧ x' ≤ xb
        · rw [if_pos h2, if_pos (by push_cast; omega)]
        · rw [if_neg h2, if_neg (by omega), if_neg (by push_cast; omega)]

/-- The outer loop of `FillRegion` over the rows `ya .. yb`, by coordinate. -/
theorem Canvas.fillRows_range (fill : Char) {w h : Int} (bg : Char) {xa xb ya yb : Int}
    (ha : 0 ≤ xa) (hb : xb < w) (hya : 0 ≤ ya) (hyb : yb < h) (data : List Char)
    (hv : (Canvas.mk w h bg data).Valid) :
    ∃ d, Canvas.fillRows fill xa xb (loopCount ya yb) ya ⟨w, h, bg, data⟩ =
        .ok ⟨w, h, bg, d⟩ ∧
      d.length = data.length ∧
      ∀ x' y' : Int, 0 ≤ x' → x' < w → 0 ≤ y' → y' < h →
        d[(y' * w + x').toNat]? =
          if xa ≤ x' ∧ x' ≤ xb ∧ ya ≤ y' ∧ y' ≤ yb then some fill
          else data[(y' * w + x').toNat]? := by
  by_cases hab : ya ≤ yb
  · have hcount : ya + (loopCount ya yb : Nat) ≤ h := by
      unfold loopCount
      omega
    obtain ⟨d, hd, hlen, hget⟩ := Canvas.fillRows_spec fill bg ha hb _ ya data hv hya hcount
    refine ⟨d, hd, hlen, fun x' y' hx0 hxw hy0' hyh' => ?_⟩
    rw [hget x' y' hx0 hxw hy0' hyh']
    have hiff : (ya ≤ y' ∧ y' < ya + (loopCount ya yb : Nat) ∧ xa ≤ x' ∧ x' ≤ xb) ↔
        (xa ≤ x' ∧ x' ≤ xb ∧ ya ≤ y' ∧ y' ≤ yb) := by
      unfold loopCount
      omega
    by_cases hc : xa ≤ x' ∧ x' ≤ xb ∧ ya ≤ y' ∧ y' ≤ yb
    · rw [if_pos hc, if_pos (hiff.2 hc)]
    · rw [if_neg hc, if_neg (fun hp => hc (hiff.1 hp))]
  · have hzero : loopCount ya yb = 0 := by
      unfold loopCount
      omega
    rw [hzero]
    refine ⟨data, rfl, rfl, fun x' y' _ _ _ _ => ?_⟩
    rw [if_neg (by omega)]

/-- With no column to fill, the outer loop of `FillRegion` writes nothing. -/
theorem Canvas.fillRows_no_cols (fill : Char) {xa xb : Int} (hzero : loopCount xa xb = 0) :
    ∀ (n : Nat) (y : Int) (c : Canvas), Canvas.fillRows fill xa xb n y c = .ok c := by
  intro n
  induction n with
  | zero => intro y c; rfl
  | succ n ih =>
    intro y c
    simp only [Canvas.fillRows, hzero, Canvas.fillCols]
    exact ih (y + 1) c

/-- The method `FillRegion` after the swaps: the loops run over the clamped minimum and maximum
of the corner coordinates. -/
theorem Canvas.FillRegion_eq (c : Canvas) (x1 y1 x2 y2 : Int) (fill : Char) :
    c.FillRegion x1 y1 x2 y2 fill =
      Canvas.fillRows fill (max 0 (min x1 x2)) (min (wrapInt (c.width_ - 1)) (max x1 x2))
        (loopCount (max 0 (min y1 y2)) (min (wrapInt (c.height_ - 1)) (max y1 y2)))
        (max 0 (min y1 y2)) c := by
  have hmin : ∀ a b : Int, (if a > b then b else a) = min a b := by
    intro a b
    rw [min_def]
    split_ifs <;> omega
  have hmax : ∀ a b : Int, (if a > b then a else b) = max a b := by
    intro a b
    rw [max_def]
    split_ifs <;> omega
  simp only [Canvas.FillRegion, hmin, hmax]

theorem Canvas.atValue_of_inBounds {c : Canvas} (hv : c.Valid) {x y : Int}
    (hx0 : 0 ≤ x) (hxw : x < c.width_) (hy0 : 0 ≤ y) (hyh : y < c.height_) :
    c.atValue x y = vectorRead c.data_ (y * c.width_ + x).toNat := by
  simp [Canvas.atValue, Canvas.at_of_inBounds hv hx0 hxw hy0 hyh]

/-- C4 (as amended): on a `w`×`h` canvas that satisfies the invariant `Valid`
(`buffer.length == w*h ≤ INT_MAX`) `FillRegion(x1, y1, x2, y2, fill)` returns; a cell `(x, y)` of the
canvas reads `fill` afterwards when it lies between the corners in both coordinates and is
unchanged otherwise; dimensions and background are kept; the corners may be exchanged, as a
pair or in one coordinate; a rectangle that meets no cell of the canvas leaves the canvas as it
was. -/
theorem C4_fillRegion (c : Canvas) (hv : c.Valid) (x1 y1 x2 y2 : Int) (fill : Char) :
    (∃ c', c.FillRegion x1 y1 x2 y2 fill = .ok c' ∧ c'.Valid ∧
      c'.Width = c.Width ∧ c'.Height = c.Height ∧ c'.background_ = c.background_ ∧
      ∀ x y : Int, 0 ≤ x → x < c.Width → 0 ≤ y → y < c.Height →
        c'.atValue x y =
          if min x1 x2 ≤ x ∧ x ≤ max x1 x2 ∧ min y1 y2 ≤ y ∧ y ≤ max y1 y2 then .ok fill
          else c.atValue x y) ∧
    (c.FillRegion x2 y2 x1 y1 fill = c.FillRegion x1 y1 x2 y2 fill ∧
      c.FillRegion x2 y1 x1 y2 fill = c.FillRegion x1 y1 x2 y2 fill ∧
      c.FillRegion x1 y2 x2 y1 fill = c.FillRegion x1 y1 x2 y2 fill) ∧
    ((¬ ∃ x y : Int, 0 ≤ x ∧ x < c.Width ∧ 0 ≤ y ∧ y < c.Height ∧
        min x1 x2 ≤ x ∧ x ≤ max x1 x2 ∧ min y1 y2 ≤ y ∧ y ≤ max y1 y2) →
      c.FillRegion x1 y1 x2 y2 fill = .ok c) := by
  obtain ⟨w, h, bg, data⟩ := c
  have hv0 := hv
  obtain ⟨hw0, hh0, hwm, hhm, _, _⟩ := hv0
  simp only at hw0 hh0 hwm hhm
  unfold INT_MAX at hwm hhm
  have hww : wrapInt (w - 1) = w - 1 := by
    unfold wrapInt
    omega
  have hwh : wrapInt (h - 1) = h - 1 := by
    unfold wrapInt
    omega
  simp only [Canvas.FillRegion_eq, Canvas.Width, Canvas.Height, hww, hwh]
  refine ⟨?_, ⟨?_, ?_, ?_⟩, ?_⟩
  · obtain ⟨d, hd, hlen, hget⟩ :=
      @Canvas.fillRows_range fill w h bg (max 0 (min x1 x2)) (min (w - 1) (max x1 x2))
        (max 0 (min y1 y2)) (min (h - 1) (max y1 y2))
        (le_max_left _ _) (by have := min_le_left (w - 1) (max x1 x2); omega)
        (le_max_left _ _) (by have := min_le_left (h - 1) (max y1 y2); omega) data hv
    have hv1 : (Canvas.mk w h bg d).Valid := by
      obtain ⟨h1, h2, h3, h4, h5, h6⟩ := hv
      exact ⟨h1, h2, h3, h4, h5, by simpa [hlen] using h6⟩
    refine ⟨_, hd, hv1, rfl, rfl, rfl, fun x y hx0 hxw hy0 hyh => ?_⟩
    rw [Canvas.atValue_of_inBounds hv1 hx0 hxw hy0 hyh,
      Canvas.atValue_of_inBounds hv hx0 hxw hy0 hyh]
    simp only [vectorRead, hget x y hx0 hxw hy0 hyh]
    have hiff : (max 0 (min x1 x2) ≤ x ∧ x ≤ min (w - 1) (max x1 x2) ∧
        max 0 (min y1 y2) ≤ y ∧ y ≤ min (h - 1) (max y1 y2)) ↔
        (min x1 x2 ≤ x ∧ x ≤ max x1 x2 ∧ min y1 y2 ≤ y ∧ y ≤ max y1 y2) := by
      simp only [max_le_iff, le_min_iff]
      omega
    by_cases hc : min x1 x2 ≤ x ∧ x ≤ max x1 x2 ∧ min y1 y2 ≤ y ∧ y ≤ max y1 y2
    · rw [if_pos hc, if_pos (hiff.2 hc)]
    · rw [if_neg hc, if_neg (fun hp => hc (hiff.1 hp))]
  · rw [min_comm x2 x1, max_comm x2 x1, min_comm y2 y1, max_comm y2 y1]
  · rw [min_comm x2 x1, max_comm x2 x1]
  · rw [min_comm y2 y1, max_comm y2 y1]
  · intro hno
    by_cases hx : max 0 (min x1 x2) ≤ min (w - 1) (max x1 x2)
    · by_cases hy : max 0 (min y1 y2) ≤ min (h - 1) (max y1 y2)
      · exfalso
        apply hno
        refine ⟨max 0 (min x1 x2), max 0 (min y1 y2), le_max_left _ _, ?_, le_max_left _ _, ?_,
          le_max_right _ _, ?_, le_max_right _ _, ?_⟩
        · have := min_le_left (w - 1) (max x1 x2)
          omega
        · have := min_le_left (h - 1) (max y1 y2)
          omega
        · exact hx.trans (min_le_right _ _)
        · exact hy.trans (min_le_right _ _)
      · have hzero : loopCount (max 0 (min y1 y2)) (min (h - 1) (max y1 y2)) = 0 := by
          unfold loopCount
          omega
        rw [hzero]
        rfl
    · exact Canvas.fillRows_no_cols fill (by unfold loopCount; omega) _ _ _

/-- Witness of C4: on the 3×2 canvas the region with corners `(5, 7)` and `(-3, 1)` is clamped
to row `1`. -/
theorem C4_fillRegion_witness :
    (Canvas.mk 3 2 '.' ['.', '.', '.', '.', '.', '.']).Valid ∧
    ∃ c', (Canvas.mk 3 2 '.' ['.', '.', '.', '.', '.', '.']).FillRegion 5 7 (-3) 1 '#' =
        .ok c' ∧ c'.Valid ∧ c'.Width = 3 ∧ c'.Height = 2 ∧ c'.background_ = '.' ∧
      ∀ x y : Int, 0 ≤ x → x < 3 → 0 ≤ y → y < 2 →
        c'.atValue x y =
          if min 5 (-3) ≤ x ∧ x ≤ max 5 (-3) ∧ min 7 1 ≤ y ∧ y ≤ max 7 1 then .ok '#'
          else (Canvas.mk 3 2 '.' ['.', '.', '.', '.', '.', '.']).atValue x y :=
  ⟨by decide,
    (C4_fillRegion ⟨3, 2, '.', ['.', '.', '.', '.', '.', '.']⟩ (by decide) 5 7 (-3) 1 '#').1⟩

/-- C4 fails as stated on the canvas that `Canvas(65536, 65536, 'x')` returns: its buffer is
empty, and `FillRegion(0, 0, 0, 0, '#')` writes `data_[0]`, outside the buffer, so the cell
`(0, 0)` of the requested rectangle is not set. -/
theorem C4_counterexample_overflow :
    Canvas.new 65536 65536 'x' = .ok ⟨65536, 65536, 'x', []⟩ ∧
    (Canvas.mk 65536 65536 'x' []).InBounds 0 0 = true ∧
    (Canvas.mk 65536 65536 'x' []).FillRegion 0 0 0 0 '#' = .error .undefinedBehavior := by
  decide

/-! ## Rendering -/

/-- The inner loop of `Render` over `n` columns from `x` in row `y`. -/
theorem Canvas.renderCols_spec {w h : Int} {bg : Char} {data : List Char}
    (hv : (Canvas.mk w h bg data).Valid) {y : Int} (hy0 : 0 ≤ y) (hyh : y < h) :
    ∀ (n : Nat) (x : Int) (os : List Char), 0 ≤ x → x + n ≤ w →
      Canvas.renderCols ⟨w, h, bg, data⟩ y n x os =
        .ok (os ++ (data.drop (y * w + x).toNat).take n) := by
  intro n
  induction n with
  | zero =>
    intro x os _ _
    simp [Canvas.renderCols]
  | succ n ih =>
    intro x os hx0 hxn
    have hxw : x < w := by push_cast at hxn; omega
    obtain ⟨ho, hlt⟩ := Canvas.offset_eq hv hx0 hxw hy0 hyh
    simp only at ho hlt
    obtain ⟨_, hpos, _⟩ := rowMajor_lt hx0 hxw hy0 hyh
    have hstep : (y * w + (x + 1)).toNat = (y * w + x).toNat + 1 := by omega
    simp only [Canvas.renderCols, ho, vectorRead, List.getElem?_eq_getElem hlt]
    rw [ih (x + 1) _ (by omega) (by push_cast at hxn; omega), hstep,
      List.drop_eq_getElem_cons hlt, List.take_succ_cons]
    simp

/-- The outer loop of `Render` over `n` rows from `y`. -/
theorem Canvas.renderRows_spec {w h : Int} {bg : Char} {data : List Char}
    (hv : (Canvas.mk w h bg data).Valid) :
    ∀ (n : Nat) (y : Int) (os : List Char), 0 ≤ y → y + n ≤ h →
      Canvas.renderRows ⟨w, h, bg, data⟩ n y os =
        .ok (os ++ linesOf w.toNat data n (y * w).toNat) := by
  intro n
  induction n with
  | zero =>
    intro y os _ _
    simp [Canvas.renderRows, linesOf]
  | succ n ih =>
    intro y os hy0 hyn
    have hyh : y < h := by push_cast at hyn; omega
    have hw0 : 0 ≤ w := hv.1
    have hyw : 0 ≤ y * w := mul_nonneg hy0 hw0
    have hcols := Canvas.renderCols_spec hv hy0 hyh w.toNat 0 os le_rfl (by omega)
    have hstep : ((y + 1) * w).toNat = (y * w).toNat + w.toNat := by
      have : (y + 1) * w = y * w + w := by ring
      omega
    simp only [Canvas.renderRows, hcols]
    rw [ih (y + 1) _ (by omega) (by push_cast at hyn; omega), hstep]
    simp [linesOf]

/-- The method `Render` on a valid canvas: the lines of the buffer after the text already in
the stream. -/
theorem Canvas.Render_eq {c : Canvas} (hv : c.Valid) (os : List Char) :
    c.Render os = .ok (os ++ linesOf c.width_.toNat c.data_ c.height_.toNat 0) := by
  obtain ⟨w, h, bg, data⟩ := c
  have hh0 : 0 ≤ h := hv.2.1
  have := Canvas.renderRows_spec hv h.toNat 0 os le_rfl (by omega)
  simpa [Canvas.Render] using this

theorem linesOf_length (w : Nat) (data : List Char) :
    ∀ (n p : Nat), p + n * w ≤ data.length → (linesOf w data n p).length = n * (w + 1) := by
  intro n
  induction n with
  | zero => intro p _; simp [linesOf]
  | succ n ih =>
    intro p hp
    have hp1 : p + w + n * w ≤ data.length := by
      have : (n + 1) * w = n * w + w := by ring
      omega
    have e : (n + 1) * (w + 1) = n * (w + 1) + (w + 1) := by ring
    simp only [linesOf, List.length_append, List.length_take, List.length_drop,
      List.length_cons, ih (p + w) hp1, e]
    omega

/-- Characters of the lines by line number and column. -/
theorem linesOf_getElem (w : Nat) (data : List Char) :
    ∀ (n p : Nat), p + n * w ≤ data.length → ∀ k x : Nat, k < n →
      (x < w → (linesOf w data n p)[k * (w + 1) + x]? = data[p + k * w + x]?) ∧
      (linesOf w data n p)[k * (w + 1) + w]? = some '\n' := by
  intro n
  induction n with
  | zero => intro p _ k x hk; omega
  | succ n ih =>
    intro p hp k x hk
    have hmul : (n + 1) * w = n * w + w := by ring
    have hp1 : p + w + n * w ≤ data.length := by omega
    have hlen : ((data.drop p).take w).length = w := by
      simp only [List.length_take, List.length_drop]
      omega
    cases k with
    | zero =>
      simp only [linesOf, Nat.zero_mul, Nat.zero_add, Nat.add_zero]
      constructor
      · intro hx
        rw [List.getElem?_append_left (by omega), List.getElem?_take_of_lt hx,
          List.getElem?_drop]
      · rw [List.getElem?_append_right (by omega), hlen]
        simp
    | succ k =>
      have hk1 : k < n := by omega
      obtain ⟨ih1, ih2⟩ := ih (p + w) hp1 k x hk1
      have e1 : ∀ j, (k + 1) * (w + 1) + j = (w + 1) + (k * (w + 1) + j) := by
        intro j; ring
      have e2 : p + (k + 1) * w + x = p + w + k * w + x := by ring
      simp only [linesOf]
      constructor
      · intro hx
        rw [e1, List.getElem?_append_right (by omega), hlen, e2, ← ih1 hx]
        have e3 : w + 1 + (k * (w + 1) + x) - w = (k * (w + 1) + x) + 1 := by omega
        rw [e3, List.getElem?_cons_succ]
      · rw [e1, List.getElem?_append_right (by omega), hlen, ← ih2]
        have e3 : w + 1 + (k * (w + 1) + w) - w = (k * (w + 1) + w) + 1 := by omega
        rw [e3, List.getElem?_cons_succ]

/-- C5 (as amended): on a `w`×`h` canvas that satisfies the invariant `Valid`
(`buffer.length == w*h ≤ INT_MAX`) `Render` appends to the stream `h` lines, `h*(w+1)` characters in
all; line `y` holds at column `x` the character `at(x, y)` and after its `w` characters a
newline.  The canvas is an argument of `Render` and not a result of it.  Scenario:
`Canvas(3,2,'.')`, `FillRegion(0,0,1,0,'#')`, `Render` emits `"##.\n...\n"`. -/
theorem C5_render (c : Canvas) (hv : c.Valid) :
    (∃ out, (∀ os, c.Render os = .ok (os ++ out)) ∧
      (out.length : Int) = c.Height * (c.Width + 1) ∧
      ∀ y : Int, 0 ≤ y → y < c.Height →
        (∀ x : Int, 0 ≤ x → x < c.Width →
          ∃ v, c.atValue x y = .ok v ∧ out[(y * (c.Width + 1) + x).toNat]? = some v) ∧
        out[(y * (c.Width + 1) + c.Width).toNat]? = some '\n') ∧
    (∃ c0 c1, Canvas.new 3 2 '.' = .ok c0 ∧ c0.FillRegion 0 0 1 0 '#' = .ok c1 ∧
      c1.Render [] = .ok "##.\n...\n".toList) := by
  refine ⟨?_, ⟨3, 2, '.', ['.', '.', '.', '.', '.', '.']⟩,
    ⟨3, 2, '.', ['#', '#', '.', '.', '.', '.']⟩, by decide, by decide, by decide⟩
  refine ⟨_, fun os => Canvas.Render_eq hv os, ?_, ?_⟩
  · obtain ⟨w, h, bg, data⟩ := c
    obtain ⟨hw0, hh0, _, _, _, hlen⟩ := hv
    simp only at hw0 hh0 hlen
    lift w to Nat using hw0
    lift h to Nat using hh0
    have hl : data.length = w * h := by exact_mod_cast hlen
    simp only [Canvas.Height, Canvas.Width, Int.toNat_ofNat]
    rw [linesOf_length w data h 0 (by rw [hl, Nat.mul_comm]; omega)]
    push_cast
    ring
  · intro y hy0 hyh
    have hv0 := hv
    obtain ⟨w, h, bg, data⟩ := c
    obtain ⟨hw0, hh0, _, _, _, hlen⟩ := hv0
    simp only [Canvas.Height, Canvas.Width] at hw0 hh0 hlen hyh ⊢
    have hbound : 0 + h.toNat * w.toNat ≤ data.length := by
      have e : ((h.toNat * w.toNat : Nat) : Int) = w * h := by
        push_cast
        rw [Int.toNat_of_nonneg hw0, Int.toNat_of_nonneg hh0]
        ring
      omega
    have hy : y.toNat < h.toNat := by omega
    constructor
    · intro x hx0 hxw
      obtain ⟨_, hlt⟩ := Canvas.offset_eq hv hx0 hxw hy0 hyh
      simp only at hlt
      obtain ⟨h1, _⟩ := linesOf_getElem w.toNat data h.toNat 0 hbound y.toNat x.toNat hy
      have e1 : (y * (w + 1) + x).toNat = y.toNat * (w.toNat + 1) + x.toNat := by
        have : ((y.toNat * (w.toNat + 1) + x.toNat : Nat) : Int) = y * (w + 1) + x := by
          push_cast
          rw [Int.toNat_of_nonneg hw0, Int.toNat_of_nonneg hy0, Int.toNat_of_nonneg hx0]
        omega
      have e2 : 0 + y.toNat * w.toNat + x.toNat = (y * w + x).toNat := by
        have : ((0 + y.toNat * w.toNat + x.toNat : Nat) : Int) = y * w + x := by
          push_cast
          rw [Int.toNat_of_nonneg hw0, Int.toNat_of_nonneg hy0, Int.toNat_of_nonneg hx0]
          ring
        omega
      refine ⟨data[(y * w + x).toNat], ?_, ?_⟩
      · rw [Canvas.atValue_of_inBounds hv hx0 hxw hy0 hyh]
        simp [vectorRead, List.getElem?_eq_getElem hlt]
      · rw [e1, h1 (by omega), e2, List.getElem?_eq_getElem hlt]
    · obtain ⟨_, h2⟩ := linesOf_getElem w.toNat data h.toNat 0 hbound y.toNat 0 hy
      have e1 : (y * (w + 1) + w).toNat = y.toNat * (w.toNat + 1) + w.toNat := by
        have : ((y.toNat * (w.toNat + 1) + w.toNat : Nat) : Int) = y * (w + 1) + w := by
          push_cast
          rw [Int.toNat_of_nonneg hw0, Int.toNat_of_nonneg hy0]
        omega
      rw [e1, h2]

/-- Witness of C5 on the 3×2 canvas of its scenario. -/
theorem C5_render_witness :
    (Canvas.mk 3 2 '.' ['#', '#', '.', '.', '.', '.']).Valid ∧
    ∃ out, (∀ os, (Canvas.mk 3 2 '.' ['#', '#', '.', '.', '.', '.']).Render os =
        .ok (os ++ out)) ∧ (out.length : Int) = 2 * (3 + 1) :=
  ⟨by decide,
    let ⟨out, h1, h2, _⟩ := (C5_render ⟨3, 2, '.', ['#', '#', '.', '.', '.', '.']⟩ (by decide)).1
    ⟨out, h1, h2⟩⟩

/-- C5 fails as stated on the canvas that `Canvas(65536, 65536, 'x')` returns: its buffer is
empty, and `Render` reads `data_[0]`, outside the buffer, for the first character of the first
line, so no line is written. -/
theorem C5_counterexample_overflow :
    Canvas.new 65536 65536 'x' = .ok ⟨65536, 65536, 'x', []⟩ ∧
    (Canvas.mk 65536 65536 'x' []).Render [] = .error .undefinedBehavior := by
  decide

/-! ## Clearing -/

/-- C7 (as amended): on a canvas that satisfies the invariant `Valid`
(`buffer.length == w*h ≤ INT_MAX`), after `Clear(fill)` every in-bounds cell reads `fill`, the stored background is `fill`,
and `Width()` and `Height()` are as before. -/
theorem C7_clear (c : Canvas) (hv : c.Valid) (fill : Char) :
    (c.Clear fill).background_ = fill ∧ (c.Clear fill).Width = c.Width ∧
    (c.Clear fill).Height = c.Height ∧
    ∀ x y : Int, 0 ≤ x → x < c.Width → 0 ≤ y → y < c.Height →
      (c.Clear fill).atValue x y = .ok fill := by
  refine ⟨rfl, rfl, rfl, fun x y hx0 hxw hy0 hyh => ?_⟩
  have hv1 : (c.Clear fill).Valid := by
    obtain ⟨h1, h2, h3, h4, h5, h6⟩ := hv
    exact ⟨h1, h2, h3, h4, h5, by simpa [Canvas.Clear] using h6⟩
  obtain ⟨_, hlt⟩ := Canvas.offset_eq hv hx0 hxw hy0 hyh
  rw [Canvas.atValue_of_inBounds hv1 hx0 hxw hy0 hyh]
  simp [vectorRead, Canvas.Clear, List.getElem?_replicate, hlt]

/-- Witness of C7 on a 3×2 canvas. -/
theorem C7_clear_witness :
    (Canvas.mk 3 2 '.' ['a', 'b', 'c', 'd', 'e', 'f']).Valid ∧
    ((Canvas.mk 3 2 '.' ['a', 'b', 'c', 'd', 'e', 'f']).Clear '#').background_ = '#' :=
  ⟨by decide, (C7_clear ⟨3, 2, '.', ['a', 'b', 'c', 'd', 'e', 'f']⟩ (by decide) '#').1⟩

/-- C7 fails as stated on the canvas that `Canvas(65536, 65536, 'x')` returns: `Clear('#')`
fills its empty buffer, and reading the in-bounds cell `(0, 0)` afterwards indexes outside the
buffer and does not give `'#'`. -/
theorem C7_counterexample_overflow :
    Canvas.new 65536 65536 'x' = .ok ⟨65536, 65536, 'x', []⟩ ∧
    ((Canvas.mk 65536 65536 'x' []).Clear '#').InBounds 0 0 = true ∧
    ((Canvas.mk 65536 65536 'x' []).Clear '#').atValue 0 0 = .error .undefinedBehavior ∧
    ((Canvas.mk 65536 65536 'x' []).Clear '#').atValue 0 0 ≠ .ok '#' := by
  decide

/-! ## The pixel iterator and the checked accessor -/

/-- The pixel iterator inside the buffer: its coordinates are in bounds and its dereference is
the cell at its own position. -/
theorem PixelIterator.star_of_lt {c : Canvas} (hv : c.Valid) (this p : Nat)
    (hp : (p : Int) < c.width_ * c.height_) :
    PixelIterator.coords c p = .ok ((p : Int) % c.width_, (p : Int) / c.width_) ∧
    (0 ≤ (p : Int) % c.width_ ∧ (p : Int) % c.width_ < c.width_ ∧
      0 ≤ (p : Int) / c.width_ ∧ (p : Int) / c.width_ < c.height_) ∧
    c.at ((p : Int) % c.width_) ((p : Int) / c.width_) = .ok p ∧
    (PixelIterator.mk this p).operator_star c = .ok p := by
  have hv0 := hv
  obtain ⟨hw0, hh0, hwm, hhm, hsm, hlen⟩ := hv0
  have hwpos : 0 < c.width_ := by
    rcases hw0.lt_or_eq with h | h
    · exact h
    · rw [← h] at hp
      simp at hp
      omega
  have hx0 : 0 ≤ (p : Int) % c.width_ := Int.emod_nonneg _ (by omega)
  have hxw : (p : Int) % c.width_ < c.width_ := Int.emod_lt_of_pos _ hwpos
  have hy0 : 0 ≤ (p : Int) / c.width_ := Int.ediv_nonneg (by omega) hw0
  have hyh : (p : Int) / c.width_ < c.height_ :=
    Int.ediv_lt_of_lt_mul hwpos (by rw [mul_comm]; exact hp)
  have hsz : toSizeT c.Width = c.width_.toNat := toSizeT_of_nonneg hw0 hwm
  have hne : c.width_.toNat ≠ 0 := by omega
  have hcx : ((p % c.width_.toNat : Nat) : Int) = (p : Int) % c.width_ := by
    rw [Int.natCast_mod, Int.toNat_of_nonneg hw0]
  have hcy : ((p / c.width_.toNat : Nat) : Int) = (p : Int) / c.width_ := by
    rw [Int.natCast_div, Int.toNat_of_nonneg hw0]
  have hcoords : PixelIterator.coords c p =
      .ok ((p : Int) % c.width_, (p : Int) / c.width_) := by
    simp only [PixelIterator.coords, hsz, if_neg hne, hcx, hcy]
    rw [wrapInt_of_isInt (isInt_of_bounds hx0 (by omega)),
      wrapInt_of_isInt (isInt_of_bounds hy0 (by omega))]
  have hat : c.at ((p : Int) % c.width_) ((p : Int) / c.width_) = .ok p := by
    rw [Canvas.at_of_inBounds hv hx0 hxw hy0 hyh]
    have := Int.ediv_add_emod (p : Int) c.width_
    have e : (p : Int) / c.width_ * c.width_ + (p : Int) % c.width_ = p := by
      rw [mul_comm]
      exact this
    rw [e, Int.toNat_ofNat]
  refine ⟨hcoords, ⟨hx0, hxw, hy0, hyh⟩, hat, ?_⟩
  simp only [PixelIterator.operator_star, hcoords, hat]

/-- The pixel iterator `begin() + n` for an offset `n` inside the buffer. -/
theorem PixelIterator.begin_plus {n : Int} (this : Nat) (h0 : 0 ≤ n) (h1 : n ≤ INT_MAX) :
    (Canvas.begin this).operator_plus n = ⟨this, n.toNat⟩ := by
  unfold INT_MAX at h1
  simp only [Canvas.begin, PixelIterator.operator_plus, toSizeT_of_nonneg h0 h1, Nat.zero_add]
  congr 1
  omega

/-- C6 (as amended): on a `w`×`h` canvas that satisfies the invariant `Valid`
(`buffer.length == w*h ≤ INT_MAX`), for in-bounds `(x, y)` the pixel iterator `begin() + (y*w + x)` and `at(x, y)` give the
same reference `r`; after a write of `v` through `r` both still give `r`, a read through it
gives `v`, and every other cell reads as before.  For every position `p < w*h` the pixel
iterator maps `p` to the coordinate `(p mod w, p div w)`, in bounds, whose cell is at buffer
position `p`. -/
theorem C6_pixel_alias (c : Canvas) (hv : c.Valid) (this : Nat) :
    (∀ x y : Int, 0 ≤ x → x < c.Width → 0 ≤ y → y < c.Height →
      ∃ r, c.at x y = .ok r ∧
        ((Canvas.begin this).operator_plus (y * c.Width + x)).operator_star c = .ok r ∧
        r = (y * c.Width + x).toNat ∧
        ∀ v : Char,
          (c.store r v).at x y = .ok r ∧
          ((Canvas.begin this).operator_plus (y * c.Width + x)).operator_star (c.store r v)
            = .ok r ∧
          (c.store r v).load r = some v ∧
          (c.store r v).atValue x y = .ok v ∧
          ∀ r', r' ≠ r → (c.store r v).load r' = c.load r') ∧
    (∀ p : Nat, (p : Int) < c.Width * c.Height →
      PixelIterator.coords c p = .ok ((p : Int) % c.Width, (p : Int) / c.Width) ∧
      c.InBounds ((p : Int) % c.Width) ((p : Int) / c.Width) = true ∧
      ((p : Int) / c.Width) * c.Width + (p : Int) % c.Width = p ∧
      c.at ((p : Int) % c.Width) ((p : Int) / c.Width) = .ok p ∧
      (PixelIterator.mk this p).operator_star c = .ok p) := by
  unfold Canvas.Width Canvas.Height
  constructor
  · intro x y hx0 hxw hy0 hyh
    obtain ⟨_, hlt⟩ := Canvas.offset_eq hv hx0 hxw hy0 hyh
    obtain ⟨_, hpos, hps⟩ := rowMajor_lt hx0 hxw hy0 hyh
    have hmax : y * c.width_ + x ≤ INT_MAX := by
      have := hv.2.2.2.2.1
      omega
    have hplus := PixelIterator.begin_plus this hpos hmax
    have hv1 : ∀ v, (c.store (y * c.width_ + x).toNat v).Valid := fun v =>
      @Canvas.valid_set c.width_ c.height_ c.background_ c.data_ hv _ v
    have hp : (((y * c.width_ + x).toNat : Nat) : Int) < c.width_ * c.height_ := by omega
    refine ⟨_, Canvas.at_of_inBounds hv hx0 hxw hy0 hyh, ?_, rfl, fun v => ⟨?_, ?_, ?_, ?_, ?_⟩⟩
    · rw [hplus]
      exact (PixelIterator.star_of_lt hv this _ hp).2.2.2
    · exact Canvas.at_of_inBounds (hv1 v) hx0 hxw hy0 hyh
    · rw [hplus]
      exact (PixelIterator.star_of_lt (hv1 v) this _ hp).2.2.2
    · simp [Canvas.load, Canvas.store, hlt]
    · rw [Canvas.atValue_of_inBounds (hv1 v) hx0 hxw hy0 hyh]
      simp [vectorRead, Canvas.store, hlt]
    · intro r' hr'
      simp only [Canvas.load, Canvas.store]
      rw [List.getElem?_set_ne (Ne.symm hr')]
  · intro p hp
    obtain ⟨h1, h2, h3, h4⟩ := PixelIterator.star_of_lt hv this p hp
    refine ⟨h1, (Canvas.inBounds_iff c _ _).2 h2, ?_, h3, h4⟩
    rw [mul_comm]
    exact Int.ediv_add_emod (p : Int) c.width_

/-- Witness of C6 on a 3×2 canvas at the coordinate `(1, 1)`, position `4`. -/
theorem C6_pixel_alias_witness :
    (Canvas.mk 3 2 '.' ['a', 'b', 'c', 'd', 'e', 'f']).Valid ∧
    (PixelIterator.mk 7 4).operator_star (Canvas.mk 3 2 '.' ['a', 'b', 'c', 'd', 'e', 'f']) =
      .ok 4 :=
  ⟨by decide,
    ((C6_pixel_alias ⟨3, 2, '.', ['a', 'b', 'c', 'd', 'e', 'f']⟩ (by decide) 7).2 4
      (by decide)).2.2.2.2⟩

/-- C6 fails as stated on the canvas that `Canvas(65536, 65536, 'x')` returns: for the in-bounds
coordinate `(0, 0)` neither `at(0, 0)` nor the dereference of `begin() + 0` gives a cell: both
index the empty buffer. -/
theorem C6_counterexample_overflow :
    Canvas.new 65536 65536 'x' = .ok ⟨65536, 65536, 'x', []⟩ ∧
    (Canvas.mk 65536 65536 'x' []).InBounds 0 0 = true ∧
    (Canvas.mk 65536 65536 'x' []).at 0 0 = .error .undefinedBehavior ∧
    ((Canvas.begin 7).operator_plus (0 * 65536 + 0)).operator_star
      (Canvas.mk 65536 65536 'x' []) = .error .undefinedBehavior := by
  decide

/-! ## Traversals -/

/-- A traversal whose iterator first equals `last` after `n` increments, and dereferences
before that, visits the `n` references in order and stops. -/
theorem traverse_spec {ι : Type} (eq : ι → ι → Bool) (inc : ι → ι)
    (star : ι → Except Error Nat) (first last : ι) (n : Nat) (ref : Nat → Nat)
    (hne : ∀ k, k < n → eq (inc^[k] first) last = false)
    (heq : eq (inc^[n] first) last = true)
    (hstar : ∀ k, k < n → star (inc^[k] first) = .ok (ref k)) :
    ∀ (fuel j : Nat) (seen : List Nat), j ≤ n → n - j < fuel →
      traverse eq inc star last fuel (inc^[j] first) seen =
        some (.ok (seen ++ (List.range' j (n - j)).map ref)) := by
  intro fuel
  induction fuel with
  | zero => intro j seen _ h; omega
  | succ fuel ih =>
    intro j seen hj hfuel
    rcases Nat.lt_or_ge j n with hlt | hge
    · have hrec := ih (j + 1) (seen ++ [ref j]) hlt (by omega)
      rw [Function.iterate_succ_apply'] at hrec
      have hsplit : n - j = (n - (j + 1)) + 1 := by omega
      simp only [traverse, hne j hlt, hstar j hlt, hrec, hsplit, List.range'_succ]
      simp
    · have hjn : j = n := by omega
      subst hjn
      simp [traverse, heq]

theorem RowIterator.iterate_inc_row (this : Nat) (row col : Int) (hcol : INT_MIN ≤ col) :
    ∀ k : Nat, col + k ≤ INT_MAX →
      RowIterator.operator_inc^[k] ⟨this, row, col⟩ = ⟨this, row, col + k⟩ := by
  intro k
  induction k with
  | zero => intro _; simp
  | succ k ih =>
    intro hk
    push_cast at hk
    rw [Function.iterate_succ_apply', ih (by omega)]
    have hw : wrapInt (col + k + 1) = col + k + 1 :=
      wrapInt_of_isInt ⟨by omega, by omega⟩
    simp only [RowIterator.operator_inc, hw]
    push_cast
    rw [add_assoc]

theorem ColumnIterator.iterate_inc_col (this : Nat) (col row : Int) (hrow : INT_MIN ≤ row) :
    ∀ k : Nat, row + k ≤ INT_MAX →
      ColumnIterator.operator_inc^[k] ⟨this, col, row⟩ = ⟨this, col, row + k⟩ := by
  intro k
  induction k with
  | zero => intro _; simp
  | succ k ih =>
    intro hk
    push_cast at hk
    rw [Function.iterate_succ_apply', ih (by omega)]
    have hw : wrapInt (row + k + 1) = row + k + 1 :=
      wrapInt_of_isInt ⟨by omega, by omega⟩
    simp only [ColumnIterator.operator_inc, hw]
    push_cast
    rw [add_assoc]

theorem PixelIterator.iterate_inc_pixel (this : Nat) (pos : Nat)
    (hpos : pos < 18446744073709551616) :
    ∀ k : Nat, PixelIterator.operator_inc^[k] ⟨this, pos⟩ =
      ⟨this, (pos + k) % 18446744073709551616⟩ := by
  intro k
  induction k with
  | zero => simp [Nat.mod_eq_of_lt hpos]
  | succ k ih =>
    rw [Function.iterate_succ_apply', ih]
    simp only [PixelIterator.operator_inc]
    congr 1
    omega

/-- C8 (as amended): on a `w`×`h` canvas that satisfies the invariant `Valid`
(`buffer.length == w*h ≤ INT_MAX`), for a row `r` with `0 ≤ r < h` the traversal from `RowBegin(r)`
to `RowEnd(r)` stops after exactly `w` dereferences, the `k`-th of which returns the cell
`(k, r)`; the iterator differs from `RowEnd(r)` after fewer than `w` increments and equals it
after `w`.  For a column `col` with `0 ≤ col < w` the same holds from `ColBegin(col)` to
`ColEnd(col)` with `h` dereferences, the `k`-th returning the cell `(col, k)`. -/
theorem C8_row_column_traversal (c : Canvas) (hv : c.Valid) (this : Nat) :
    (∀ r : Int, 0 ≤ r → r < c.Height →
      (∀ fuel, c.Width.toNat < fuel →
        traverse RowIterator.operator_eq RowIterator.operator_inc (fun it => it.operator_star c)
          (Canvas.RowEnd this c r) fuel (Canvas.RowBegin this r) [] =
          some (.ok ((List.range c.Width.toNat).map (fun k : Nat => (r * c.Width + k).toNat)))) ∧
      (∀ k : Nat, (k : Int) < c.Width →
        (RowIterator.operator_inc^[k] (Canvas.RowBegin this r)).operator_star c = c.at k r ∧
        c.at k r = .ok (r * c.Width + k).toNat ∧
        RowIterator.operator_eq (RowIterator.operator_inc^[k] (Canvas.RowBegin this r))
          (Canvas.RowEnd this c r) = false) ∧
      RowIterator.operator_eq (RowIterator.operator_inc^[c.Width.toNat] (Canvas.RowBegin this r))
        (Canvas.RowEnd this c r) = true) ∧
    (∀ col : Int, 0 ≤ col → col < c.Width →
      (∀ fuel, c.Height.toNat < fuel →
        traverse ColumnIterator.operator_eq ColumnIterator.operator_inc
          (fun it => it.operator_star c)
          (Canvas.ColEnd this c col) fuel (Canvas.ColBegin this col) [] =
          some (.ok ((List.range c.Height.toNat).map
            (fun k : Nat => (k * c.Width + col).toNat)))) ∧
      (∀ k : Nat, (k : Int) < c.Height →
        (ColumnIterator.operator_inc^[k] (Canvas.ColBegin this col)).operator_star c =
          c.at col k ∧
        c.at col k = .ok (k * c.Width + col).toNat ∧
        ColumnIterator.operator_eq (ColumnIterator.operator_inc^[k] (Canvas.ColBegin this col))
          (Canvas.ColEnd this c col) = false) ∧
      ColumnIterator.operator_eq
        (ColumnIterator.operator_inc^[c.Height.toNat] (Canvas.ColBegin this col))
        (Canvas.ColEnd this c col) = true) := by
  have hv0 := hv
  obtain ⟨hw0, hh0, hwm, hhm, _, _⟩ := hv0
  unfold Canvas.Width Canvas.Height
  have hmin : INT_MIN ≤ 0 := by decide
  constructor
  · intro r hr0 hrh
    have hit : ∀ k : Nat, (k : Int) ≤ c.width_ →
        RowIterator.operator_inc^[k] (Canvas.RowBegin this r) = ⟨this, r, k⟩ := by
      intro k hk
      have := RowIterator.iterate_inc_row this r 0 hmin k (by omega)
      simpa [Canvas.RowBegin] using this
    have hk : ∀ k : Nat, (k : Int) < c.width_ →
        (RowIterator.operator_inc^[k] (Canvas.RowBegin this r)).operator_star c = c.at k r ∧
        c.at k r = .ok (r * c.width_ + k).toNat ∧
        RowIterator.operator_eq (RowIterator.operator_inc^[k] (Canvas.RowBegin this r))
          (Canvas.RowEnd this c r) = false := by
      intro k hkw
      rw [hit k (by omega)]
      refine ⟨rfl, Canvas.at_of_inBounds hv (by omega) hkw hr0 hrh, ?_⟩
      simp only [RowIterator.operator_eq, Canvas.RowEnd]
      simp
      omega
    have hend : RowIterator.operator_eq
        (RowIterator.operator_inc^[c.width_.toNat] (Canvas.RowBegin this r))
        (Canvas.RowEnd this c r) = true := by
      rw [hit _ (by omega)]
      simp [RowIterator.operator_eq, Canvas.RowEnd, Int.toNat_of_nonneg hw0]
    refine ⟨fun fuel hfuel => ?_, hk, hend⟩
    have := traverse_spec RowIterator.operator_eq RowIterator.operator_inc
      (fun it => it.operator_star c) (Canvas.RowBegin this r) (Canvas.RowEnd this c r)
      c.width_.toNat (fun k => (r * c.width_ + k).toNat)
      (fun k hkn => (hk k (by omega)).2.2) hend
      (fun k hkn => by
        simp only
        rw [(hk k (by omega)).1, (hk k (by omega)).2.1])
      fuel 0 [] (Nat.zero_le _) (by omega)
    simpa [List.range_eq_range'] using this
  · intro col hc0 hcw
    have hit : ∀ k : Nat, (k : Int) ≤ c.height_ →
        ColumnIterator.operator_inc^[k] (Canvas.ColBegin this col) = ⟨this, col, k⟩ := by
      intro k hk
      have := ColumnIterator.iterate_inc_col this col 0 hmin k (by omega)
      simpa [Canvas.ColBegin] using this
    have hk : ∀ k : Nat, (k : Int) < c.height_ →
        (ColumnIterator.operator_inc^[k] (Canvas.ColBegin this col)).operator_star c =
          c.at col k ∧
        c.at col k = .ok (k * c.width_ + col).toNat ∧
        ColumnIterator.operator_eq (ColumnIterator.operator_inc^[k] (Canvas.ColBegin this col))
          (Canvas.ColEnd this c col) = false := by
      intro k hkh
      rw [hit k (by omega)]
      refine ⟨rfl, Canvas.at_of_inBounds hv hc0 hcw (by omega) hkh, ?_⟩
      simp only [ColumnIterator.operator_eq, Canvas.ColEnd]
      simp
      omega
    have hend : ColumnIterator.operator_eq
        (ColumnIterator.operator_inc^[c.height_.toNat] (Canvas.ColBegin this col))
        (Canvas.ColEnd this c col) = true := by
      rw [hit _ (by omega)]
      simp [ColumnIterator.operator_eq, Canvas.ColEnd, Int.toNat_of_nonneg hh0]
    refine ⟨fun fuel hfuel => ?_, hk, hend⟩
    have := traverse_spec ColumnIterator.operator_eq ColumnIterator.operator_inc
      (fun it => it.operator_star c) (Canvas.ColBegin this col) (Canvas.ColEnd this c col)
      c.height_.toNat (fun k => (k * c.width_ + col).toNat)
      (fun k hkn => (hk k (by omega)).2.2) hend
      (fun k hkn => by
        simp only
        rw [(hk k (by omega)).1, (hk k (by omega)).2.1])
      fuel 0 [] (Nat.zero_le _) (by omega)
    simpa [List.range_eq_range'] using this

/-- Witness of C8 on a 3×2 canvas: row `1` is visited as the buffer positions `3, 4, 5`. -/
theorem C8_row_column_traversal_witness :
    (Canvas.mk 3 2 '.' ['a', 'b', 'c', 'd', 'e', 'f']).Valid ∧
    traverse RowIterator.operator_eq RowIterator.operator_inc
      (fun it => it.operator_star (Canvas.mk 3 2 '.' ['a', 'b', 'c', 'd', 'e', 'f']))
      (Canvas.RowEnd 7 (Canvas.mk 3 2 '.' ['a', 'b', 'c', 'd', 'e', 'f']) 1) 10
      (Canvas.RowBegin 7 1) [] = some (.ok [3, 4, 5]) :=
  ⟨by decide,
    ((C8_row_column_traversal ⟨3, 2, '.', ['a', 'b', 'c', 'd', 'e', 'f']⟩ (by decide) 7).1 1
      (by decide) (by decide)).1 10 (by decide)⟩

/-- C8 fails as stated on the canvas that `Canvas(65536, 65536, 'x')` returns: row `0` is a row
of the canvas, and the first dereference of the traversal from `RowBegin(0)` indexes the empty
buffer, so it does not succeed. -/
theorem C8_counterexample_overflow :
    Canvas.new 65536 65536 'x' = .ok ⟨65536, 65536, 'x', []⟩ ∧
    (0 : Int) < (Canvas.mk 65536 65536 'x' []).Height ∧
    (Canvas.RowBegin 7 0).operator_star (Canvas.mk 65536 65536 'x' []) =
      .error .undefinedBehavior ∧
    traverse RowIterator.operator_eq RowIterator.operator_inc
      (fun it => it.operator_star (Canvas.mk 65536 65536 'x' []))
      (Canvas.RowEnd 7 (Canvas.mk 65536 65536 'x' []) 0) 3 (Canvas.RowBegin 7 0) [] =
      some (.error .undefinedBehavior) := by
  decide

/-! ## Pixel order and rendering order -/

theorem dropLineEnds_linesOf (w : Nat) (data : List Char) :
    ∀ (n p : Nat), p + n * w ≤ data.length →
      dropLineEnds w n (linesOf w data n p) = (data.drop p).take (n * w) := by
  intro n
  induction n with
  | zero => intro p _; simp [dropLineEnds]
  | succ n ih =>
    intro p hp
    have hmul : (n + 1) * w = w + n * w := by ring
    have hp1 : p + w + n * w ≤ data.length := by omega
    have hlen : ((data.drop p).take w).length = w := by
      simp only [List.length_take, List.length_drop]
      omega
    have hlen1 : ((data.drop p).take w ++ ['\n']).length = w + 1 := by
      simp only [List.length_append, hlen, List.length_singleton]
    have hcut : (data.drop p).take w ++ '\n' :: linesOf w data n (p + w) =
        ((data.drop p).take w ++ ['\n']) ++ linesOf w data n (p + w) := by simp
    simp only [dropLineEnds, linesOf]
    rw [List.take_left' hlen, hcut, List.drop_left' hlen1, ih (p + w) hp1, hmul, List.take_add,
      List.drop_drop]

theorem filter_linesOf (w : Nat) (data : List Char) (hnl : ∀ ch ∈ data, ch ≠ '\n') :
    ∀ (n p : Nat), p + n * w ≤ data.length →
      (linesOf w data n p).filter (fun ch => ch != '\n') = (data.drop p).take (n * w) := by
  intro n
  induction n with
  | zero => intro p _; simp [linesOf]
  | succ n ih =>
    intro p hp
    have hmul : (n + 1) * w = w + n * w := by ring
    have hp1 : p + w + n * w ≤ data.length := by omega
    have hrow : ((data.drop p).take w).filter (fun ch => ch != '\n') = (data.drop p).take w := by
      rw [List.filter_eq_self]
      intro ch hch
      have := hnl ch (List.mem_of_mem_drop (List.mem_of_mem_take hch))
      simpa using this
    simp only [linesOf, List.filter_append, hrow]
    rw [List.filter_cons_of_neg (by simp), ih (p + w) hp1, hmul, List.take_add, List.drop_drop]

theorem map_getElem?_range (l : List Char) :
    (List.range l.length).map (fun i => l[i]?) = l.map some := by
  apply List.ext_getElem?
  intro i
  by_cases hi : i < l.length
  · simp [hi, List.getElem?_range]
  · have hle : l.length ≤ i := Nat.le_of_not_lt hi
    rw [List.getElem?_map, List.getElem?_map, List.getElem?_eq_none hle,
      List.getElem?_eq_none (by simpa using hle)]
    rfl

/-- The pixel traversal of a valid canvas visits the buffer positions in increasing order. -/
theorem PixelIterator.traverse_eq {c : Canvas} (hv : c.Valid) (this : Nat) :
    Canvas.end this c = ⟨this, c.data_.length⟩ ∧
    ∀ fuel, c.data_.length < fuel →
      traverse PixelIterator.operator_eq PixelIterator.operator_inc
        (fun it => it.operator_star c) (Canvas.end this c) fuel (Canvas.begin this) [] =
        some (.ok (List.range c.data_.length)) := by
  have hv0 := hv
  obtain ⟨hw0, hh0, hwm, hhm, hsm, hlen⟩ := hv0
  have hp : 0 ≤ c.width_ * c.height_ := mul_nonneg hw0 hh0
  have hend : Canvas.end this c = ⟨this, c.data_.length⟩ := by
    simp only [Canvas.end, Canvas.Size, wrapInt_of_isInt (isInt_of_bounds hp hsm),
      toSizeT_of_nonneg hp hsm]
    congr 1
    omega
  have hbig : c.data_.length < 18446744073709551616 := by
    unfold INT_MAX at hsm
    omega
  have hit : ∀ k : Nat, k ≤ c.data_.length →
      PixelIterator.operator_inc^[k] (Canvas.begin this) = ⟨this, k⟩ := by
    intro k hk
    have := PixelIterator.iterate_inc_pixel this 0 (by decide) k
    rw [Canvas.begin, this, Nat.zero_add, Nat.mod_eq_of_lt (by omega)]
  refine ⟨hend, fun fuel hfuel => ?_⟩
  have := traverse_spec PixelIterator.operator_eq PixelIterator.operator_inc
    (fun it => it.operator_star c) (Canvas.begin this) (Canvas.end this c)
    c.data_.length (fun k => k)
    (fun k hkn => by
      rw [hit k (by omega), hend]
      simp only [PixelIterator.operator_eq]
      simp
      omega)
    (by
      rw [hit _ le_rfl, hend]
      simp [PixelIterator.operator_eq])
    (fun k hkn => by
      simp only
      rw [hit k (by omega)]
      exact (PixelIterator.star_of_lt hv this k (by omega)).2.2.2)
    fuel 0 [] (Nat.zero_le _) (by omega)
  simpa [List.range_eq_range'] using this

/-- C9 (as amended): on a `w`×`h` canvas that satisfies the invariant `Valid`
(`buffer.length == w*h ≤ INT_MAX`) the traversal from `begin()` to `end()` stops after
`w*h` dereferences, each of which returns a cell; the characters read through them are the
output of `Render` without the newline that ends each of its `h` lines, and without its
newline characters altogether when no cell of the canvas holds a newline. -/
theorem C9_pixel_order_render (c : Canvas) (hv : c.Valid) (this : Nat) :
    ∃ refs chars out,
      (∀ fuel, (c.Width * c.Height).toNat < fuel →
        traverse PixelIterator.operator_eq PixelIterator.operator_inc
          (fun it => it.operator_star c) (Canvas.end this c) fuel (Canvas.begin this) [] =
          some (.ok refs)) ∧
      refs.map c.load = chars.map some ∧
      (chars.length : Int) = c.Width * c.Height ∧
      c.Render [] = .ok out ∧
      dropLineEnds c.Width.toNat c.Height.toNat out = chars ∧
      ((∀ ch ∈ c.data_, ch ≠ '\n') → out.filter (fun ch => ch != '\n') = chars) := by
  have hv0 := hv
  obtain ⟨hw0, hh0, _, _, _, hlen⟩ := hv0
  have hN : (c.width_ * c.height_).toNat = c.data_.length := by omega
  have hmulN : c.height_.toNat * c.width_.toNat = c.data_.length := by
    have e : ((c.height_.toNat * c.width_.toNat : Nat) : Int) = c.width_ * c.height_ := by
      push_cast
      rw [Int.toNat_of_nonneg hw0, Int.toNat_of_nonneg hh0]
      ring
    omega
  have hbound : 0 + c.height_.toNat * c.width_.toNat ≤ c.data_.length := by omega
  have htake : (c.data_.drop 0).take (c.height_.toNat * c.width_.toNat) = c.data_ := by
    rw [List.drop_zero, hmulN, List.take_length]
  refine ⟨List.range c.data_.length, c.data_, linesOf c.width_.toNat c.data_ c.height_.toNat 0,
    ?_, ?_, hlen, ?_, ?_, ?_⟩
  · intro fuel hfuel
    simp only [Canvas.Width, Canvas.Height, hN] at hfuel
    exact (PixelIterator.traverse_eq hv this).2 fuel hfuel
  · exact map_getElem?_range c.data_
  · simpa using Canvas.Render_eq hv []
  · simp only [Canvas.Width, Canvas.Height]
    rw [dropLineEnds_linesOf _ _ _ _ hbound, htake]
  · intro hnl
    rw [filter_linesOf _ _ hnl _ _ hbound, htake]

/-- Witness of C9 on a 2×2 canvas. -/
theorem C9_pixel_order_render_witness :
    (Canvas.mk 2 2 '.' ['a', 'b', 'c', 'd']).Valid ∧
    ∃ refs chars out,
      (∀ fuel, ((2 : Int) * 2).toNat < fuel →
        traverse PixelIterator.operator_eq PixelIterator.operator_inc
          (fun it => it.operator_star (Canvas.mk 2 2 '.' ['a', 'b', 'c', 'd']))
          (Canvas.end 7 (Canvas.mk 2 2 '.' ['a', 'b', 'c', 'd'])) fuel (Canvas.begin 7) [] =
          some (.ok refs)) ∧
      refs.map (Canvas.mk 2 2 '.' ['a', 'b', 'c', 'd']).load = chars.map some ∧
      (chars.length : Int) = 2 * 2 ∧
      (Canvas.mk 2 2 '.' ['a', 'b', 'c', 'd']).Render [] = .ok out ∧
      dropLineEnds 2 2 out = chars ∧
      ((∀ ch ∈ ['a', 'b', 'c', 'd'], ch ≠ '\n') → out.filter (fun ch => ch != '\n') = chars) :=
  ⟨by decide, C9_pixel_order_render ⟨2, 2, '.', ['a', 'b', 'c', 'd']⟩ (by decide) 7⟩

/-- C9 fails as stated on `Canvas(1, 1, '\n')`: the pixel traversal reads the one cell, a
newline, while `Render` emits two newlines, of which nothing is left once the newline
characters are removed.  It also fails on the canvas that `Canvas(65536, 65536, 'x')` returns,
whose buffer is empty: the traversal from `begin()` to `end()` visits no position, not
`65536 * 65536`, and `Render` reads outside the buffer. -/
theorem C9_counterexample_newline_cell :
    (Canvas.mk 1 1 '\n' ['\n']).Valid ∧
    Canvas.new 1 1 '\n' = .ok (Canvas.mk 1 1 '\n' ['\n']) ∧
    traverse PixelIterator.operator_eq PixelIterator.operator_inc
      (fun it => it.operator_star (Canvas.mk 1 1 '\n' ['\n']))
      (Canvas.end 7 (Canvas.mk 1 1 '\n' ['\n'])) 2 (Canvas.begin 7) [] = some (.ok [0]) ∧
    [0].map (Canvas.mk 1 1 '\n' ['\n']).load = [some '\n'] ∧
    (Canvas.mk 1 1 '\n' ['\n']).Render [] = .ok ['\n', '\n'] ∧
    ['\n', '\n'].filter (fun ch => ch != '\n') = [] ∧
    ([] : List Char) ≠ ['\n'] ∧
    Canvas.new 65536 65536 'x' = .ok ⟨65536, 65536, 'x', []⟩ ∧
    traverse PixelIterator.operator_eq PixelIterator.operator_inc
      (fun it => it.operator_star (Canvas.mk 65536 65536 'x' []))
      (Canvas.end 7 (Canvas.mk 65536 65536 'x' [])) 3 (Canvas.begin 7) [] = some (.ok []) ∧
    (([] : List Nat).length : Int) ≠
      (Canvas.mk 65536 65536 'x' []).Width * (Canvas.mk 65536 65536 'x' []).Height ∧
    (Canvas.mk 65536 65536 'x' []).Render [] = .error .undefinedBehavior := by
  decide

/-! ## Offsets, subscripts and repeated increments -/

theorem wrap_offset {z : Int} (h0 : 0 ≤ z) (h1 : z ≤ INT_MAX) : wrapInt (wrapLong z) = z := by
  unfold INT_MAX at h1
  rw [wrapLong_of_isLong ⟨by omega, by omega⟩, wrapInt_of_isInt (isInt_of_bounds h0 h1)]

theorem PixelIterator.offset_pos (pos : Nat) (n : Int) (h0 : 0 ≤ (pos : Int) + n)
    (h1 : (pos : Int) + n ≤ INT_MAX) :
    (pos + toSizeT n) % 18446744073709551616 = ((pos : Int) + n).toNat := by
  unfold INT_MAX at h1
  unfold toSizeT
  omega

/-- C10 (as amended): on a canvas that satisfies the invariant `Valid`
(`buffer.length == w*h ≤ INT_MAX`), for a row iterator whose row is a row of the canvas, a
column iterator whose column is a column of the canvas, and a pixel iterator, and for every
offset `n` that brings the position into `[Begin, End)`: `*(it + n)`, `it[n]` and, for
`n ≥ 0`, the dereference after `n` increments of `it` all return, and return the same cell. -/
theorem C10_plus_index_inc (c : Canvas) (hv : c.Valid) :
    (∀ (it : RowIterator) (n : Int), IsInt it.col_ → 0 ≤ it.row_ → it.row_ < c.Height →
      0 ≤ it.col_ + n → it.col_ + n < c.Width →
      ∃ r, r = (it.row_ * c.Width + (it.col_ + n)).toNat ∧
        c.at (it.col_ + n) it.row_ = .ok r ∧
        (it.operator_plus n).operator_star c = .ok r ∧
        it.operator_index c n = .ok r ∧
        (0 ≤ n → (RowIterator.operator_inc^[n.toNat] it).operator_star c = .ok r)) ∧
    (∀ (it : ColumnIterator) (n : Int), IsInt it.row_ → 0 ≤ it.col_ → it.col_ < c.Width →
      0 ≤ it.row_ + n → it.row_ + n < c.Height →
      ∃ r, r = ((it.row_ + n) * c.Width + it.col_).toNat ∧
        c.at it.col_ (it.row_ + n) = .ok r ∧
        (it.operator_plus n).operator_star c = .ok r ∧
        it.operator_index c n = .ok r ∧
        (0 ≤ n → (ColumnIterator.operator_inc^[n.toNat] it).operator_star c = .ok r)) ∧
    (∀ (it : PixelIterator) (n : Int), 0 ≤ (it.pos_ : Int) + n →
      (it.pos_ : Int) + n < c.Width * c.Height →
      ∃ r, r = ((it.pos_ : Int) + n).toNat ∧
        (it.operator_plus n).operator_star c = .ok r ∧
        it.operator_index c n = .ok r ∧
        (0 ≤ n → (PixelIterator.operator_inc^[n.toNat] it).operator_star c = .ok r)) := by
  have hv0 := hv
  obtain ⟨hw0, hh0, hwm, hhm, hsm, hlen⟩ := hv0
  unfold Canvas.Width Canvas.Height
  refine ⟨?_, ?_, ?_⟩
  · intro it n hcol hr0 hrh h0 h1
    obtain ⟨this, row, col⟩ := it
    simp only at hcol hr0 hrh h0 h1 ⊢
    have hat := Canvas.at_of_inBounds hv h0 h1 hr0 hrh
    have hwrap := wrap_offset h0 (by omega : col + n ≤ INT_MAX)
    refine ⟨_, rfl, hat, ?_, ?_, fun hn => ?_⟩
    · simp only [RowIterator.operator_plus, RowIterator.operator_star, hwrap, hat]
    · simp only [RowIterator.operator_index, hwrap, hat]
    · have hn' : col + (n.toNat : Int) = col + n := by omega
      rw [RowIterator.iterate_inc_row this row col hcol.1 n.toNat (by omega)]
      simp only [RowIterator.operator_star, hn', hat]
  · intro it n hrow hc0 hcw h0 h1
    obtain ⟨this, col, row⟩ := it
    simp only at hrow hc0 hcw h0 h1 ⊢
    have hat := Canvas.at_of_inBounds hv hc0 hcw h0 h1
    have hwrap := wrap_offset h0 (by omega : row + n ≤ INT_MAX)
    refine ⟨_, rfl, hat, ?_, ?_, fun hn => ?_⟩
    · simp only [ColumnIterator.operator_plus, ColumnIterator.operator_star, hwrap, hat]
    · simp only [ColumnIterator.operator_index, hwrap, hat]
    · have hn' : row + (n.toNat : Int) = row + n := by omega
      rw [ColumnIterator.iterate_inc_col this col row hrow.1 n.toNat (by omega)]
      simp only [ColumnIterator.operator_star, hn', hat]
  · intro it n h0 h1
    obtain ⟨this, pos⟩ := it
    simp only at h0 h1 ⊢
    have hoff := PixelIterator.offset_pos pos n h0 (by omega)
    have hp : ((((pos : Int) + n).toNat : Nat) : Int) < c.width_ * c.height_ := by omega
    obtain ⟨hco, _, hat, hstar⟩ := PixelIterator.star_of_lt hv this _ hp
    refine ⟨_, rfl, ?_, ?_, fun hn => ?_⟩
    · simp only [PixelIterator.operator_plus, hoff]
      exact hstar
    · simp only [PixelIterator.operator_index, hoff, hco, hat]
    · unfold INT_MAX at hsm
      rw [PixelIterator.iterate_inc_pixel this pos (by omega) n.toNat]
      have e : (pos + n.toNat) % 18446744073709551616 = ((pos : Int) + n).toNat := by omega
      rw [e]
      exact hstar

/-- Witness of C10 on a 3×2 canvas: from `RowBegin(1)` the offset `2` reaches the cell at
buffer position `5`. -/
theorem C10_plus_index_inc_witness :
    (Canvas.mk 3 2 '.' ['a', 'b', 'c', 'd', 'e', 'f']).Valid ∧
    ∃ r, r = ((1 : Int) * 3 + (0 + 2)).toNat ∧
      (Canvas.mk 3 2 '.' ['a', 'b', 'c', 'd', 'e', 'f']).at (0 + 2) 1 = .ok r ∧
      ((RowIterator.mk 7 1 0).operator_plus 2).operator_star
        (Canvas.mk 3 2 '.' ['a', 'b', 'c', 'd', 'e', 'f']) = .ok r ∧
      (RowIterator.mk 7 1 0).operator_index
        (Canvas.mk 3 2 '.' ['a', 'b', 'c', 'd', 'e', 'f']) 2 = .ok r ∧
      ((0 : Int) ≤ 2 → (RowIterator.operator_inc^[(2 : Int).toNat] (RowIterator.mk 7 1 0)).operator_star
        (Canvas.mk 3 2 '.' ['a', 'b', 'c', 'd', 'e', 'f']) = .ok r) :=
  ⟨by decide,
    (C10_plus_index_inc ⟨3, 2, '.', ['a', 'b', 'c', 'd', 'e', 'f']⟩ (by decide)).1 ⟨7, 1, 0⟩ 2
      (by decide) (by decide) (by decide) (by decide) (by decide)⟩

/-- C10 fails as stated for the row iterator `RowBegin(5)` of a 2×2 canvas and the offset `0`:
the position `0` lies in `[RowBegin(5), RowEnd(5))`, and `*(it + 0)`, `it[0]` and `*it` all
throw `std::out_of_range`, since row `5` is no row of the canvas.  It also fails on the canvas
that `Canvas(65536, 65536, 'x')` returns, whose buffer is empty: row `0` is a row of it and
the position `0` lies in `[RowBegin(0), RowEnd(0))`, yet `*(it + 0)`, `it[0]` and `*it` index
outside the buffer. -/
theorem C10_counterexample_row_outside :
    (Canvas.mk 2 2 '.' ['a', 'b', 'c', 'd']).Valid ∧
    (Canvas.RowBegin 7 5).col_ ≤ (Canvas.RowBegin 7 5).col_ + 0 ∧
    (Canvas.RowBegin 7 5).col_ + 0 < (Canvas.RowEnd 7 (Canvas.mk 2 2 '.' ['a', 'b', 'c', 'd']) 5).col_ ∧
    ((Canvas.RowBegin 7 5).operator_plus 0).operator_star (Canvas.mk 2 2 '.' ['a', 'b', 'c', 'd'])
      = .error .outOfRange ∧
    (Canvas.RowBegin 7 5).operator_index (Canvas.mk 2 2 '.' ['a', 'b', 'c', 'd']) 0
      = .error .outOfRange ∧
    (RowIterator.operator_inc^[0] (Canvas.RowBegin 7 5)).operator_star
      (Canvas.mk 2 2 '.' ['a', 'b', 'c', 'd']) = .error .outOfRange ∧
    Canvas.new 65536 65536 'x' = .ok ⟨65536, 65536, 'x', []⟩ ∧
    (0 : Int) < (Canvas.mk 65536 65536 'x' []).Height ∧
    (Canvas.RowBegin 7 0).col_ + 0 < (Canvas.RowEnd 7 (Canvas.mk 65536 65536 'x' []) 0).col_ ∧
    ((Canvas.RowBegin 7 0).operator_plus 0).operator_star (Canvas.mk 65536 65536 'x' [])
      = .error .undefinedBehavior ∧
    (Canvas.RowBegin 7 0).operator_index (Canvas.mk 65536 65536 'x' []) 0
      = .error .undefinedBehavior ∧
    (RowIterator.operator_inc^[0] (Canvas.RowBegin 7 0)).operator_star
      (Canvas.mk 65536 65536 'x' []) = .error .undefinedBehavior := by
  decide

/-! ## Distances between the factory iterators -/

/-- C11 (as amended): on a `w`×`h` canvas that satisfies the invariant `Valid`
(`buffer.length == w*h ≤ INT_MAX`), `RowEnd(r) - RowBegin(r) == w` for every `r`,
`ColEnd(col) - ColBegin(col) == h` for every `col`, and `end() - begin() == w*h == Size()`. -/
theorem C11_end_minus_begin (c : Canvas) (hv : c.Valid) (this : Nat) :
    (∀ r : Int, (Canvas.RowEnd this c r).operator_diff (Canvas.RowBegin this r) = c.Width) ∧
    (∀ col : Int,
      (Canvas.ColEnd this c col).operator_diff (Canvas.ColBegin this col) = c.Height) ∧
    (Canvas.end this c).operator_diff (Canvas.begin this) = c.Width * c.Height ∧
    c.Width * c.Height = c.Size := by
  obtain ⟨hw0, hh0, hwm, hhm, hsm, hlen⟩ := hv
  have hp : 0 ≤ c.width_ * c.height_ := mul_nonneg hw0 hh0
  have hsize : c.Size = c.width_ * c.height_ := wrapInt_of_isInt (isInt_of_bounds hp hsm)
  unfold Canvas.Width Canvas.Height
  refine ⟨fun r => ?_, fun col => ?_, ?_, hsize.symm⟩
  · simp only [RowIterator.operator_diff, Canvas.RowEnd, Canvas.RowBegin, sub_zero]
    exact wrapInt_of_isInt (isInt_of_bounds hw0 hwm)
  · simp only [ColumnIterator.operator_diff, Canvas.ColEnd, Canvas.ColBegin, sub_zero]
    exact wrapInt_of_isInt (isInt_of_bounds hh0 hhm)
  · simp only [PixelIterator.operator_diff, Canvas.end, Canvas.begin, hsize,
      toSizeT_of_nonneg hp hsm, Int.toNat_of_nonneg hp]
    unfold INT_MAX at hsm
    unfold wrapLong
    omega

/-- Witness of C11 on a 3×2 canvas. -/
theorem C11_end_minus_begin_witness :
    (Canvas.mk 3 2 '.' ['a', 'b', 'c', 'd', 'e', 'f']).Valid ∧
    (Canvas.end 7 (Canvas.mk 3 2 '.' ['a', 'b', 'c', 'd', 'e', 'f'])).operator_diff
      (Canvas.begin 7) = 3 * 2 :=
  ⟨by decide, (C11_end_minus_begin ⟨3, 2, '.', ['a', 'b', 'c', 'd', 'e', 'f']⟩ (by decide) 7).2.2.1⟩

/-- C11 fails as stated on the canvas that `Canvas(65536, 65536, 'x')` returns: `Size()` is the
`int` product `0`, `end()` is at position `0`, and `end() - begin()` is `0`, while `w*h` is
`4294967296`. -/
theorem C11_counterexample_overflow :
    Canvas.new 65536 65536 'x' = .ok ⟨65536, 65536, 'x', []⟩ ∧
    (Canvas.end 7 (Canvas.mk 65536 65536 'x' [])).operator_diff (Canvas.begin 7) = 0 ∧
    (Canvas.mk 65536 65536 'x' []).Size = 0 ∧
    (Canvas.mk 65536 65536 'x' []).Width * (Canvas.mk 65536 65536 'x' []).Height =
      4294967296 ∧
    (Canvas.end 7 (Canvas.mk 65536 65536 'x' [])).operator_diff (Canvas.begin 7) ≠
      (Canvas.mk 65536 65536 'x' []).Width * (Canvas.mk 65536 65536 'x' []).Height := by
  decide

/-! ## Dereference is checked -/

/-- The checked accessor on a valid canvas: it throws exactly outside the bounds, and inside
them it returns what the unchecked accessor returns. -/
theorem Canvas.at_cases {c : Canvas} (hv : c.Valid) (x y : Int) :
    (c.at x y = .error .outOfRange ↔ c.InBounds x y = false) ∧
    (c.InBounds x y = true → c.at x y = c.operator_call x y ∧ ∃ r, c.at x y = .ok r) := by
  by_cases hb : c.InBounds x y = true
  · obtain ⟨hx0, hxw, hy0, hyh⟩ := (Canvas.inBounds_iff c x y).1 hb
    have hat := Canvas.at_of_inBounds hv hx0 hxw hy0 hyh
    refine ⟨by simp [hat, hb], fun _ => ⟨?_, _, hat⟩⟩
    simp [Canvas.at, Canvas.operator_call, hb]
  · have hf : c.InBounds x y = false := by simpa using hb
    refine ⟨by simp [Canvas.at, hf], fun h => absurd h hb⟩

/-- The pixel iterator at `end()` of a valid canvas with a positive width has the coordinate
`(0, h)`. -/
theorem PixelIterator.coords_end {c : Canvas} (hv : c.Valid) (hw : 0 < c.width_) (this : Nat) :
    PixelIterator.coords c (Canvas.end this c).pos_ = .ok (0, c.height_) := by
  obtain ⟨hw0, hh0, hwm, hhm, hsm, hlen⟩ := hv
  have hp : 0 ≤ c.width_ * c.height_ := mul_nonneg hw0 hh0
  have hsz : toSizeT c.Width = c.width_.toNat := toSizeT_of_nonneg hw0 hwm
  have hne : c.width_.toNat ≠ 0 := by omega
  have hpos : (Canvas.end this c).pos_ = c.height_.toNat * c.width_.toNat := by
    simp only [Canvas.end, Canvas.Size, wrapInt_of_isInt (isInt_of_bounds hp hsm),
      toSizeT_of_nonneg hp hsm]
    have e : ((c.height_.toNat * c.width_.toNat : Nat) : Int) = c.width_ * c.height_ := by
      push_cast
      rw [Int.toNat_of_nonneg hw0, Int.toNat_of_nonneg hh0]
      ring
    omega
  simp only [PixelIterator.coords, hsz, if_neg hne, hpos, Nat.mul_mod_left,
    Nat.mul_div_cancel _ (Nat.pos_of_ne_zero hne), Int.toNat_of_nonneg hh0]
  have h1 : wrapInt ((0 : Nat) : Int) = 0 := by decide
  rw [h1, wrapInt_of_isInt (isInt_of_bounds hh0 hhm)]

/-- The checked accessor on any canvas: it throws exactly outside the bounds, and inside them
it does what the unchecked accessor does. -/
theorem Canvas.at_checked_or_call (c : Canvas) (x y : Int) :
    (c.at x y = .error .outOfRange ↔ c.InBounds x y = false) ∧
    (c.InBounds x y = true → c.at x y = c.operator_call x y) := by
  cases hb : c.InBounds x y with
  | false => simp [Canvas.at, hb]
  | true =>
    have hat : c.at x y = vectorIndex c.data_ (c.offset x y) := by simp [Canvas.at, hb]
    refine ⟨?_, fun _ => hat⟩
    rw [hat]
    unfold vectorIndex
    split <;> simp

/-- The conversion of an `int` width to `size_t` is zero exactly for the width zero. -/
theorem toSizeT_eq_zero_iff {z : Int} (h : IsInt z) : toSizeT z = 0 ↔ z = 0 := by
  unfold IsInt INT_MIN INT_MAX at h
  unfold toSizeT
  omega

/-- C12 (as amended): the dereferences of the three iterator families go through the checked
accessor `at`.  For a row or column iterator `operator*` and `operator->` are `at` at the
coordinate of the position, and `it[n]` is `*(it + n)`.  For a pixel iterator at position `p`
on a canvas whose width `w` (converted to `size_t`) is not zero they are `at` at
`(p mod w, p div w)`, both narrowed to `int`; on a canvas of width zero they divide by zero.
Whenever a coordinate is computed, the dereference throws `std::out_of_range` exactly when it
is outside the canvas, does what the unchecked accessor does when it is inside, and then
returns a cell if the canvas satisfies the invariant `Valid`
(`buffer.length == w*h ≤ INT_MAX`).  The dereference throws at `RowEnd(r)` and at
`ColEnd(col)`, and at `end()` of a canvas of positive width that satisfies `Valid`. -/
theorem C12_deref_checked (c : Canvas) (this : Nat) :
    (∀ it : RowIterator,
      it.operator_star c = c.at it.col_ it.row_ ∧
      it.operator_arrow c = c.at it.col_ it.row_ ∧
      (∀ n : Int, it.operator_index c n = (it.operator_plus n).operator_star c) ∧
      (it.operator_star c = .error .outOfRange ↔ c.InBounds it.col_ it.row_ = false) ∧
      (c.InBounds it.col_ it.row_ = true →
        it.operator_star c = c.operator_call it.col_ it.row_) ∧
      (c.Valid → c.InBounds it.col_ it.row_ = true → ∃ r, it.operator_star c = .ok r)) ∧
    (∀ it : ColumnIterator,
      it.operator_star c = c.at it.col_ it.row_ ∧
      it.operator_arrow c = c.at it.col_ it.row_ ∧
      (∀ n : Int, it.operator_index c n = (it.operator_plus n).operator_star c) ∧
      (it.operator_star c = .error .outOfRange ↔ c.InBounds it.col_ it.row_ = false) ∧
      (c.InBounds it.col_ it.row_ = true →
        it.operator_star c = c.operator_call it.col_ it.row_) ∧
      (c.Valid → c.InBounds it.col_ it.row_ = true → ∃ r, it.operator_star c = .ok r)) ∧
    (∀ it : PixelIterator,
      (∀ n : Int, it.operator_index c n = (it.operator_plus n).operator_star c) ∧
      (toSizeT c.Width = 0 →
        it.operator_star c = .error .undefinedBehavior ∧
        it.operator_arrow c = .error .undefinedBehavior) ∧
      (toSizeT c.Width ≠ 0 →
        it.operator_star c =
          c.at (wrapInt ((it.pos_ % toSizeT c.Width : Nat) : Int))
            (wrapInt ((it.pos_ / toSizeT c.Width : Nat) : Int)) ∧
        it.operator_arrow c =
          c.at (wrapInt ((it.pos_ % toSizeT c.Width : Nat) : Int))
            (wrapInt ((it.pos_ / toSizeT c.Width : Nat) : Int)) ∧
        (it.operator_star c = .error .outOfRange ↔
          c.InBounds (wrapInt ((it.pos_ % toSizeT c.Width : Nat) : Int))
            (wrapInt ((it.pos_ / toSizeT c.Width : Nat) : Int)) = false) ∧
        (c.InBounds (wrapInt ((it.pos_ % toSizeT c.Width : Nat) : Int))
            (wrapInt ((it.pos_ / toSizeT c.Width : Nat) : Int)) = true →
          it.operator_star c =
            c.operator_call (wrapInt ((it.pos_ % toSizeT c.Width : Nat) : Int))
              (wrapInt ((it.pos_ / toSizeT c.Width : Nat) : Int))) ∧
        (c.Valid →
          c.InBounds (wrapInt ((it.pos_ % toSizeT c.Width : Nat) : Int))
            (wrapInt ((it.pos_ / toSizeT c.Width : Nat) : Int)) = true →
          ∃ r, it.operator_star c = .ok r))) ∧
    (IsInt c.Width → (toSizeT c.Width = 0 ↔ c.Width = 0)) ∧
    (∀ r : Int, (Canvas.RowEnd this c r).operator_star c = .error .outOfRange) ∧
    (∀ col : Int, (Canvas.ColEnd this c col).operator_star c = .error .outOfRange) ∧
    (c.Valid → 0 < c.Width → (Canvas.end this c).operator_star c = .error .outOfRange) := by
  refine ⟨fun it => ?_, fun it => ?_, fun it => ⟨fun n => rfl, fun hz => ?_, fun hnz => ?_⟩,
    fun hint => toSizeT_eq_zero_iff hint, fun r => ?_, fun col => ?_, fun hv hw => ?_⟩
  · obtain ⟨h1, h2⟩ := Canvas.at_checked_or_call c it.col_ it.row_
    exact ⟨rfl, rfl, fun n => rfl, h1, h2, fun hv hb => (Canvas.at_cases hv _ _).2 hb |>.2⟩
  · obtain ⟨h1, h2⟩ := Canvas.at_checked_or_call c it.col_ it.row_
    exact ⟨rfl, rfl, fun n => rfl, h1, h2, fun hv hb => (Canvas.at_cases hv _ _).2 hb |>.2⟩
  · simp [PixelIterator.operator_star, PixelIterator.operator_arrow, PixelIterator.coords, hz]
  · have hstar : it.operator_star c =
        c.at (wrapInt ((it.pos_ % toSizeT c.Width : Nat) : Int))
          (wrapInt ((it.pos_ / toSizeT c.Width : Nat) : Int)) := by
      simp only [PixelIterator.operator_star, PixelIterator.coords, if_neg hnz]
    have harrow : it.operator_arrow c =
        c.at (wrapInt ((it.pos_ % toSizeT c.Width : Nat) : Int))
          (wrapInt ((it.pos_ / toSizeT c.Width : Nat) : Int)) := by
      simp only [PixelIterator.operator_arrow, PixelIterator.coords, if_neg hnz]
    obtain ⟨h1, h2⟩ := Canvas.at_checked_or_call c
      (wrapInt ((it.pos_ % toSizeT c.Width : Nat) : Int))
      (wrapInt ((it.pos_ / toSizeT c.Width : Nat) : Int))
    refine ⟨hstar, harrow, ?_, ?_, ?_⟩
    · rw [hstar]
      exact h1
    · rw [hstar]
      exact h2
    · intro hv hb
      rw [hstar]
      exact ((Canvas.at_cases hv _ _).2 hb).2
  · exact Canvas.at_of_not_inBounds (Or.inr (Or.inl (le_refl _)))
  · exact Canvas.at_of_not_inBounds (Or.inr (Or.inr (Or.inr (le_refl _))))
  · have hco := PixelIterator.coords_end hv hw this
    simp only [PixelIterator.operator_star, hco]
    exact Canvas.at_of_not_inBounds (Or.inr (Or.inr (Or.inr (le_refl _))))

/-- Witness of C12 on a 2×2 canvas: the dereference of `end()` throws `std::out_of_range`, and
on the moved-from 0×0 canvas the dereference of a pixel iterator divides by zero. -/
theorem C12_deref_checked_witness :
    (Canvas.mk 2 2 '.' ['a', 'b', 'c', 'd']).Valid ∧
    (Canvas.end 7 (Canvas.mk 2 2 '.' ['a', 'b', 'c', 'd'])).operator_star
      (Canvas.mk 2 2 '.' ['a', 'b', 'c', 'd']) = .error .outOfRange ∧
    (PixelIterator.mk 7 0).operator_star (Canvas.mk 0 0 '.' []) = .error .undefinedBehavior :=
  ⟨by decide,
    (C12_deref_checked ⟨2, 2, '.', ['a', 'b', 'c', 'd']⟩ 7).2.2.2.2.2.2 (by decide) (by decide),
    ((C12_deref_checked ⟨0, 0, '.', []⟩ 7).2.2.1 ⟨7, 0⟩).2.1 (by decide) |>.1⟩

/-- C12 fails as stated at `RowEnd(0)` of a 2×2 canvas: `operator*`, `operator->` and
`operator[]` with offset `0` throw `std::out_of_range`, while the unchecked accessor at the
same coordinate `(2, 0)` returns the cell at buffer position `2`. -/
theorem C12_counterexample_row_end :
    (Canvas.mk 2 2 '.' ['a', 'b', 'c', 'd']).Valid ∧
    (Canvas.RowEnd 7 (Canvas.mk 2 2 '.' ['a', 'b', 'c', 'd']) 0) = ⟨7, 0, 2⟩ ∧
    (Canvas.RowEnd 7 (Canvas.mk 2 2 '.' ['a', 'b', 'c', 'd']) 0).operator_star
      (Canvas.mk 2 2 '.' ['a', 'b', 'c', 'd']) = .error .outOfRange ∧
    (Canvas.RowEnd 7 (Canvas.mk 2 2 '.' ['a', 'b', 'c', 'd']) 0).operator_arrow
      (Canvas.mk 2 2 '.' ['a', 'b', 'c', 'd']) = .error .outOfRange ∧
    (Canvas.RowEnd 7 (Canvas.mk 2 2 '.' ['a', 'b', 'c', 'd']) 0).operator_index
      (Canvas.mk 2 2 '.' ['a', 'b', 'c', 'd']) 0 = .error .outOfRange ∧
    (Canvas.mk 2 2 '.' ['a', 'b', 'c', 'd']).operator_call 2 0 = .ok 2 := by
  decide

/-! ## Moves -/

/-- A canvas with zero dimensions: every accessor sees an empty grid. -/
theorem Canvas.zero_dims (bg : Char) (data : List Char) :
    (Canvas.mk 0 0 bg data).Width = 0 ∧ (Canvas.mk 0 0 bg data).Height = 0 ∧
    (Canvas.mk 0 0 bg data).Size = 0 ∧
    ∀ x y : Int, (Canvas.mk 0 0 bg data).InBounds x y = false ∧
      (Canvas.mk 0 0 bg data).at x y = .error .outOfRange := by
  have hsize : wrapInt ((0 : Int) * 0) = 0 := by decide
  refine ⟨rfl, rfl, hsize, fun x y => ?_⟩
  have hb : (Canvas.mk 0 0 bg data).InBounds x y = false := by
    rw [Bool.eq_false_iff, Ne, Canvas.inBounds_iff]
    simp only
    omega
  exact ⟨hb, by simp [Canvas.at, hb]⟩

/-- C13: the move constructor, and the move assignment between two distinct canvases, give the
destination the width, height, background and buffer of the source, and leave the source a
valid 0×0 canvas: `Width() == 0`, `Height() == 0`, `Size() == 0`, `InBounds` false everywhere
and `at` throwing `std::out_of_range` everywhere. -/
theorem C13_move (this that : Nat) (self other : Canvas) (hne : this ≠ that) :
    ((Canvas.moveNew other).1 = other ∧
      (Canvas.moveNew other).2.Valid ∧
      (Canvas.moveNew other).2.Width = 0 ∧ (Canvas.moveNew other).2.Height = 0 ∧
      (Canvas.moveNew other).2.Size = 0 ∧
      ∀ x y : Int, (Canvas.moveNew other).2.InBounds x y = false ∧
        (Canvas.moveNew other).2.at x y = .error .outOfRange) ∧
    ((Canvas.operator_move_assign this that self other).1 = other ∧
      (Canvas.operator_move_assign this that self other).2.Valid ∧
      (Canvas.operator_move_assign this that self other).2.Width = 0 ∧
      (Canvas.operator_move_assign this that self other).2.Height = 0 ∧
      (Canvas.operator_move_assign this that self other).2.Size = 0 ∧
      ∀ x y : Int, (Canvas.operator_move_assign this that self other).2.InBounds x y = false ∧
        (Canvas.operator_move_assign this that self other).2.at x y = .error .outOfRange) := by
  obtain ⟨h1, h2, h3, h4⟩ := Canvas.zero_dims other.background_ []
  have hvalid : (Canvas.mk 0 0 other.background_ []).Valid := by
    simp [Canvas.Valid, INT_MAX]
  have hm : Canvas.operator_move_assign this that self other = Canvas.moveNew other := by
    simp only [Canvas.operator_move_assign, if_pos hne, Canvas.moveNew]
  have hnew : (Canvas.moveNew other).1 = other ∧
      (Canvas.moveNew other).2.Valid ∧
      (Canvas.moveNew other).2.Width = 0 ∧ (Canvas.moveNew other).2.Height = 0 ∧
      (Canvas.moveNew other).2.Size = 0 ∧
      ∀ x y : Int, (Canvas.moveNew other).2.InBounds x y = false ∧
        (Canvas.moveNew other).2.at x y = .error .outOfRange :=
    ⟨rfl, hvalid, h1, h2, h3, h4⟩
  rw [hm]
  exact ⟨hnew, hnew⟩

/-- Witness of C13: a 2×1 canvas at address `1` is moved into a canvas at address `2`. -/
theorem C13_move_witness :
    (1 : Nat) ≠ 2 ∧
    (Canvas.operator_move_assign 2 1 (Canvas.mk 1 1 '.' ['z']) (Canvas.mk 2 1 '#' ['a', 'b'])).1
      = Canvas.mk 2 1 '#' ['a', 'b'] ∧
    (Canvas.operator_move_assign 2 1 (Canvas.mk 1 1 '.' ['z']) (Canvas.mk 2 1 '#' ['a', 'b'])).2.Size
      = 0 :=
  ⟨by decide,
    (C13_move 2 1 ⟨1, 1, '.', ['z']⟩ ⟨2, 1, '#', ['a', 'b']⟩ (by decide)).2.1,
    (C13_move 2 1 ⟨1, 1, '.', ['z']⟩ ⟨2, 1, '#', ['a', 'b']⟩ (by decide)).2.2.2.2.2.1⟩

/-! ## The size invariant -/

theorem Canvas.new_ok_positive {w h : Int} {b : Char} {c : Canvas}
    (hc : Canvas.new w h b = .ok c) : 0 < w ∧ 0 < h := by
  by_contra hneg
  have hd : w ≤ 0 ∨ h ≤ 0 := by omega
  rcases Canvas.new_nonpositive w h b hd with h1 | h1 <;> rw [h1] at hc <;> cases hc

/-- The inner loop of `FillRegion` keeps the dimensions and the length of the buffer. -/
theorem Canvas.fillCols_shape (fill : Char) (y : Int) :
    ∀ (n : Nat) (x : Int) (c c' : Canvas), Canvas.fillCols fill y n x c = .ok c' →
      c'.width_ = c.width_ ∧ c'.height_ = c.height_ ∧ c'.data_.length = c.data_.length := by
  intro n
  induction n with
  | zero =>
    intro x c c' h
    simp only [Canvas.fillCols, Except.ok.injEq] at h
    subst h
    exact ⟨rfl, rfl, rfl⟩
  | succ n ih =>
    intro x c c' h
    by_cases hlt : c.offset x y < c.data_.length
    · simp only [Canvas.fillCols, vectorIndex, if_pos hlt] at h
      obtain ⟨h1, h2, h3⟩ := ih _ _ _ h
      exact ⟨h1, h2, by simpa [Canvas.store] using h3⟩
    · simp only [Canvas.fillCols, vectorIndex, if_neg hlt] at h
      cases h

/-- The outer loop of `FillRegion` keeps the dimensions and the length of the buffer. -/
theorem Canvas.fillRows_shape (fill : Char) (x1 x2 : Int) :
    ∀ (n : Nat) (y : Int) (c c' : Canvas), Canvas.fillRows fill x1 x2 n y c = .ok c' →
      c'.width_ = c.width_ ∧ c'.height_ = c.height_ ∧ c'.data_.length = c.data_.length := by
  intro n
  induction n with
  | zero =>
    intro y c c' h
    simp only [Canvas.fillRows, Except.ok.injEq] at h
    subst h
    exact ⟨rfl, rfl, rfl⟩
  | succ n ih =>
    intro y c c' h
    cases hrow : Canvas.fillCols fill y (loopCount x1 x2) x1 c with
    | error e =>
      simp only [Canvas.fillRows, hrow] at h
      cases h
    | ok c1 =>
      simp only [Canvas.fillRows, hrow] at h
      obtain ⟨a1, a2, a3⟩ := Canvas.fillCols_shape fill y _ _ _ _ hrow
      obtain ⟨b1, b2, b3⟩ := ih _ _ _ h
      exact ⟨b1.trans a1, b2.trans a2, b3.trans a3⟩

/-- On a valid canvas `FillRegion` returns, whatever its arguments. -/
theorem Canvas.FillRegion_returns {c : Canvas} (hv : c.Valid) (x1 y1 x2 y2 : Int)
    (fill : Char) : ∃ c', c.FillRegion x1 y1 x2 y2 fill = .ok c' := by
  obtain ⟨w, h, bg, data⟩ := c
  have hv0 := hv
  obtain ⟨hw0, hh0, hwm, hhm, _, _⟩ := hv0
  simp only at hw0 hh0 hwm hhm
  unfold INT_MAX at hwm hhm
  have hww : wrapInt (w - 1) = w - 1 := by
    unfold wrapInt
    omega
  have hwh : wrapInt (h - 1) = h - 1 := by
    unfold wrapInt
    omega
  obtain ⟨d, hd, _, _⟩ :=
    @Canvas.fillRows_range fill w h bg (max 0 (min x1 x2)) (min (w - 1) (max x1 x2))
      (max 0 (min y1 y2)) (min (h - 1) (max y1 y2))
      (le_max_left _ _) (by have := min_le_left (w - 1) (max x1 x2); omega)
      (le_max_left _ _) (by have := min_le_left (h - 1) (max y1 y2); omega) data hv
  refine ⟨⟨w, h, bg, d⟩, ?_⟩
  simp only [Canvas.FillRegion_eq, hww, hwh]
  exact hd

theorem Canvas.FillRegion_shape {c c' : Canvas} {x1 y1 x2 y2 : Int} {fill : Char}
    (h : c.FillRegion x1 y1 x2 y2 fill = .ok c') :
    c'.width_ = c.width_ ∧ c'.height_ = c.height_ ∧ c'.data_.length = c.data_.length := by
  rw [Canvas.FillRegion_eq] at h
  exact Canvas.fillRows_shape fill _ _ _ _ _ _ h

theorem Canvas.valid_of_shape {c c' : Canvas} (hv : c.Valid)
    (h : c'.width_ = c.width_ ∧ c'.height_ = c.height_ ∧ c'.data_.length = c.data_.length) :
    c'.Valid := by
  obtain ⟨h1, h2, h3⟩ := h
  unfold Canvas.Valid at hv ⊢
  rw [h1, h2, h3]
  exact hv

theorem Canvas.sizeInvariant_of_shape {c c' : Canvas} (hv : c.SizeInvariant)
    (h : c'.width_ = c.width_ ∧ c'.height_ = c.height_ ∧ c'.data_.length = c.data_.length) :
    c'.SizeInvariant := by
  obtain ⟨h1, h2, h3⟩ := h
  unfold Canvas.SizeInvariant at hv ⊢
  rw [h1, h2, h3]
  exact hv

/-- C14 (as amended): `buffer.length == width*height` holds for every canvas that the
constructor returns for dimensions whose product is an `int`, and every public mutation keeps
it: `Clear`, `FillRegion` (which returns for all arguments), a write through `at`, copy
assignment, move construction and move assignment, for the destination and for the source.
The same holds of the invariant `Valid` of the data model. -/
theorem C14_size_invariant :
    (∀ (w h : Int) (b : Char) (c : Canvas), Canvas.new w h b = .ok c → w * h ≤ INT_MAX →
      c.SizeInvariant ∧ c.Valid) ∧
    (∀ (c : Canvas) (fill : Char),
      (c.SizeInvariant → (c.Clear fill).SizeInvariant) ∧ (c.Valid → (c.Clear fill).Valid)) ∧
    (∀ (c c' : Canvas) (x1 y1 x2 y2 : Int) (fill : Char),
      c.FillRegion x1 y1 x2 y2 fill = .ok c' →
      (c.SizeInvariant → c'.SizeInvariant) ∧ (c.Valid → c'.Valid)) ∧
    (∀ (c : Canvas) (x1 y1 x2 y2 : Int) (fill : Char), c.Valid →
      ∃ c', c.FillRegion x1 y1 x2 y2 fill = .ok c' ∧ c'.SizeInvariant ∧ c'.Valid) ∧
    (∀ (c : Canvas) (x y : Int) (r : Nat) (v : Char), c.at x y = .ok r →
      (c.SizeInvariant → (c.store r v).SizeInvariant) ∧ (c.Valid → (c.store r v).Valid)) ∧
    (∀ (this that : Nat) (self other : Canvas),
      (self.SizeInvariant → other.SizeInvariant →
        (Canvas.operator_assign this that self other).SizeInvariant) ∧
      (self.Valid → other.Valid → (Canvas.operator_assign this that self other).Valid)) ∧
    (∀ other : Canvas,
      (other.SizeInvariant →
        (Canvas.moveNew other).1.SizeInvariant ∧ (Canvas.moveNew other).2.SizeInvariant) ∧
      (other.Valid → (Canvas.moveNew other).1.Valid ∧ (Canvas.moveNew other).2.Valid)) ∧
    (∀ (this that : Nat) (self other : Canvas),
      (self.SizeInvariant → other.SizeInvariant →
        (Canvas.operator_move_assign this that self other).1.SizeInvariant ∧
        (Canvas.operator_move_assign this that self other).2.SizeInvariant) ∧
      (self.Valid → other.Valid →
        (Canvas.operator_move_assign this that self other).1.Valid ∧
        (Canvas.operator_move_assign this that self other).2.Valid)) := by
  have hzero : ∀ bg : Char, (Canvas.mk 0 0 bg []).SizeInvariant ∧ (Canvas.mk 0 0 bg []).Valid :=
    fun bg => ⟨by simp [Canvas.SizeInvariant], by simp [Canvas.Valid, INT_MAX]⟩
  have hvs : ∀ c : Canvas, c.Valid → c.SizeInvariant := fun c hv => hv.2.2.2.2.2
  refine ⟨?_, ?_, ?_, ?_, ?_, ?_, ?_, ?_⟩
  · intro w h b c hc hs
    obtain ⟨hw, hh⟩ := Canvas.new_ok_positive hc
    rw [Canvas.new_eq b hw hh hs] at hc
    cases hc
    have hv := Canvas.valid_replicate b hw hh hs
    exact ⟨hvs _ hv, hv⟩
  · intro c fill
    have hshape : (c.Clear fill).width_ = c.width_ ∧ (c.Clear fill).height_ = c.height_ ∧
        (c.Clear fill).data_.length = c.data_.length := ⟨rfl, rfl, by simp [Canvas.Clear]⟩
    exact ⟨fun h => Canvas.sizeInvariant_of_shape h hshape,
      fun h => Canvas.valid_of_shape h hshape⟩
  · intro c c' x1 y1 x2 y2 fill hc
    have hshape := Canvas.FillRegion_shape hc
    exact ⟨fun h => Canvas.sizeInvariant_of_shape h hshape,
      fun h => Canvas.valid_of_shape h hshape⟩
  · intro c x1 y1 x2 y2 fill hv
    obtain ⟨c', hc⟩ := Canvas.FillRegion_returns hv x1 y1 x2 y2 fill
    have hv' := Canvas.valid_of_shape hv (Canvas.FillRegion_shape hc)
    exact ⟨c', hc, hvs _ hv', hv'⟩
  · intro c x y r v _
    have hshape : (c.store r v).width_ = c.width_ ∧ (c.store r v).height_ = c.height_ ∧
        (c.store r v).data_.length = c.data_.length := ⟨rfl, rfl, by simp [Canvas.store]⟩
    exact ⟨fun h => Canvas.sizeInvariant_of_shape h hshape,
      fun h => Canvas.valid_of_shape h hshape⟩
  · intro this that self other
    by_cases hne : this ≠ that
    · simp only [Canvas.operator_assign, if_pos hne]
      exact ⟨fun _ h => h, fun _ h => h⟩
    · simp only [Canvas.operator_assign, if_neg hne]
      exact ⟨fun h _ => h, fun h _ => h⟩
  · intro other
    exact ⟨fun h => ⟨h, (hzero _).1⟩, fun h => ⟨h, (hzero _).2⟩⟩
  · intro this that self other
    by_cases hne : this ≠ that
    · simp only [Canvas.operator_move_assign, if_pos hne]
      exact ⟨fun _ h => ⟨h, (hzero _).1⟩, fun _ h => ⟨h, (hzero _).2⟩⟩
    · simp only [Canvas.operator_move_assign, if_neg hne]
      exact ⟨fun h1 h2 => ⟨h1, h2⟩, fun h1 h2 => ⟨h1, h2⟩⟩

/-- C14 fails as stated at `Canvas(131072, 32768, '.')`: the `int` product `width * height`
is `0`, the constructor returns a canvas of these dimensions with an empty buffer, and
`0 ≠ 131072 * 32768`. -/
theorem C14_counterexample_overflow :
    Canvas.new 131072 32768 '.' = .ok ⟨131072, 32768, '.', []⟩ ∧
    ¬ (Canvas.mk 131072 32768 '.' []).SizeInvariant ∧
    ((Canvas.mk 131072 32768 '.' []).data_.length : Int) ≠ 131072 * 32768 := by
  decide

/-! ## Saving -/

theorem digitChar_decimal : ∀ k, k < 10 →
    (Nat.digitChar k).toNat - 48 = k ∧ (Nat.digitChar k).isDigit = true := by
  decide

/-- The digits produced for `n` denote `n` in base ten, and are decimal digits. -/
theorem toDigitsCore_decimal :
    ∀ (fuel n : Nat) (ds : List Char), n < fuel →
      (Nat.toDigitsCore 10 fuel n ds).foldl (fun acc ch => 10 * acc + (ch.toNat - 48)) 0 =
        ds.foldl (fun acc ch => 10 * acc + (ch.toNat - 48)) n ∧
      ((∀ ch ∈ ds, ch.isDigit = true) →
        ∀ ch ∈ Nat.toDigitsCore 10 fuel n ds, ch.isDigit = true) := by
  intro fuel
  induction fuel with
  | zero => intro n ds h; omega
  | succ fuel ih =>
    intro n ds hn
    obtain ⟨hval, hdig⟩ := digitChar_decimal (n % 10) (Nat.mod_lt _ (by decide))
    by_cases h0 : n / 10 = 0
    · have hmod : n % 10 = n := by omega
      rw [hmod] at hval hdig
      simp only [Nat.toDigitsCore, h0, if_true, List.foldl_cons, Nat.mul_zero, Nat.zero_add,
        hmod, hval]
      refine ⟨trivial, fun hds ch hch => ?_⟩
      rcases List.mem_cons.1 hch with h | h
      · rw [h]
        exact hdig
      · exact hds ch h
    · simp only [Nat.toDigitsCore, h0, if_false]
      obtain ⟨ih1, ih2⟩ := ih (n / 10) (Nat.digitChar (n % 10) :: ds) (by omega)
      refine ⟨?_, fun hds => ih2 ?_⟩
      · rw [ih1, List.foldl_cons, hval]
        have hsum : 10 * (n / 10) + n % 10 = n := by omega
        rw [hsum]
      · intro ch hch
        rcases List.mem_cons.1 hch with h | h
        · rw [h]
          exact hdig
        · exact hds ch h

/-- For a non-negative `int` the characters written are decimal digits that denote it. -/
theorem intDecimal_decimal {z : Int} (hz : 0 ≤ z) :
    (∀ ch ∈ intDecimal z, ch.isDigit = true) ∧ (decimalValue (intDecimal z) : Int) = z := by
  obtain ⟨n, rfl⟩ := Int.eq_ofNat_of_zero_le hz
  have hrepr : intDecimal (n : Int) = Nat.toDigitsCore 10 (n + 1) n [] := rfl
  obtain ⟨h1, h2⟩ := toDigitsCore_decimal (n + 1) n [] (Nat.lt_succ_self n)
  rw [hrepr]
  refine ⟨h2 (fun ch hch => absurd hch (List.not_mem_nil ch)), ?_⟩
  simp only [decimalValue, h1, List.foldl_nil]

/-- C15 (as amended): on a canvas that satisfies the invariant `Valid`
(`buffer.length == w*h ≤ INT_MAX`), when the file can be opened, the text `SaveToFile` leaves
in it is the line `Canvas <w>x<h>`, the line `Background: '<b>'`, the line `Content:`, each
ended by a newline, followed by exactly the output of `Render` and nothing else; `<w>` and
`<h>` are strings of decimal digits that denote `w` and `h` in base ten.  Scenarios:
`Canvas(2,2,' ')` gives `"Canvas 2x2\nBackground: ' '\nContent:\n  \n  \n"`, and
`Canvas(12,1,'.')` gives `"Canvas 12x1\nBackground: '.'\nContent:\n............\n"`. -/
theorem C15_saveToFile (c : Canvas) (hv : c.Valid) :
    (∃ out, c.Render [] = .ok out ∧
      c.SaveToFile true =
        .ok (("Canvas ".toList ++ intDecimal c.Width ++ "x".toList ++ intDecimal c.Height
            ++ ['\n'])
          ++ ("Background: '".toList ++ [c.background_] ++ "'".toList ++ ['\n'])
          ++ ("Content:".toList ++ ['\n'])
          ++ out)) ∧
    ((∀ ch ∈ intDecimal c.Width, ch.isDigit = true) ∧
      (decimalValue (intDecimal c.Width) : Int) = c.Width ∧
      (∀ ch ∈ intDecimal c.Height, ch.isDigit = true) ∧
      (decimalValue (intDecimal c.Height) : Int) = c.Height) ∧
    (∃ c0, Canvas.new 2 2 ' ' = .ok c0 ∧
      c0.SaveToFile true = .ok "Canvas 2x2\nBackground: ' '\nContent:\n  \n  \n".toList) ∧
    (∃ c1, Canvas.new 12 1 '.' = .ok c1 ∧
      c1.SaveToFile true =
        .ok "Canvas 12x1\nBackground: '.'\nContent:\n............\n".toList) := by
  refine ⟨⟨_, by simpa using Canvas.Render_eq hv [], ?_⟩,
    ⟨(intDecimal_decimal hv.1).1, (intDecimal_decimal hv.1).2,
      (intDecimal_decimal hv.2.1).1, (intDecimal_decimal hv.2.1).2⟩,
    ⟨⟨2, 2, ' ', [' ', ' ', ' ', ' ']⟩, by decide, by decide⟩,
    ⟨⟨12, 1, '.', List.replicate 12 '.'⟩, by decide, by decide⟩⟩
  have hsplit : "Background: '".toList = "Background: ".toList ++ "'".toList := by decide
  simp only [Canvas.SaveToFile, Bool.not_true, Bool.false_eq_true, if_false,
    Canvas.Render_eq hv, Canvas.Width, Canvas.Height, hsplit, List.append_assoc]

/-- Witness of C15 on a 12×1 canvas: the file starts with the line `Canvas 12x1`. -/
theorem C15_saveToFile_witness :
    (Canvas.mk 12 1 '.' (List.replicate 12 '.')).Valid ∧
    (∃ out, (Canvas.mk 12 1 '.' (List.replicate 12 '.')).Render [] = .ok out ∧
      (Canvas.mk 12 1 '.' (List.replicate 12 '.')).SaveToFile true =
        .ok (("Canvas ".toList ++ intDecimal 12 ++ "x".toList ++ intDecimal 1 ++ ['\n'])
          ++ ("Background: '".toList ++ ['.'] ++ "'".toList ++ ['\n'])
          ++ ("Content:".toList ++ ['\n'])
          ++ out)) ∧
    intDecimal 12 = ['1', '2'] ∧
    (decimalValue (intDecimal 12) : Int) = 12 ∧
    (Canvas.mk 12 1 '.' (List.replicate 12 '.')).SaveToFile true =
      .ok "Canvas 12x1\nBackground: '.'\nContent:\n............\n".toList :=
  ⟨by decide,
    (C15_saveToFile ⟨12, 1, '.', List.replicate 12 '.'⟩ (by decide)).1,
    by decide,
    (C15_saveToFile ⟨12, 1, '.', List.replicate 12 '.'⟩ (by decide)).2.1.2.1,
    by decide⟩

/-- C15 fails as stated on the canvas that `Canvas(65536, 65536, 'x')` returns: its buffer is
empty, so after the header `Render` reads outside the buffer and the content lines are not
written. -/
theorem C15_counterexample_overflow :
    Canvas.new 65536 65536 'x' = .ok ⟨65536, 65536, 'x', []⟩ ∧
    (Canvas.mk 65536 65536 'x' []).SaveToFile true = .error .undefinedBehavior := by
  decide

/-! ## Configuration -/

theorem foldl_push (l : List Char) :
    ∀ init : List Char, l.foldl (fun palette c => palette ++ [c]) init = init ++ l := by
  induction l with
  | nil => intro init; simp
  | cons a l ih => intro init; simp [ih]

/-- The palette has one entry for each character of the string, in order. -/
theorem Config.ParsePalette_eq (palette_str : String) :
    Config.ParsePalette palette_str = palette_str.toList := by
  simp [Config.ParsePalette, foldl_push]

/-- The three rejections of `ValidateConfig`. -/
theorem Config.ValidateConfig_eq_false (config : PlotterConfig) :
    Config.ValidateConfig config = false ↔
      (config.width ≤ 0 ∨ config.height ≤ 0 ∨
        (config.plotter_type ≠ "basic" ∧ config.plotter_type ≠ "grayscale") ∨
        config.palette.length = 1) := by
  unfold Config.ValidateConfig
  have hpal : (!config.palette.isEmpty && decide (config.palette.length < 2)) = true ↔
      config.palette.length = 1 := by
    cases hp : config.palette with
    | nil => simp
    | cons a l =>
      simp only [List.isEmpty_cons, Bool.not_false, Bool.true_and, decide_eq_true_eq,
        List.length_cons]
      omega
  by_cases h1 : config.width ≤ 0 ∨ config.height ≤ 0
  · rw [if_pos h1]
    simp only [true_iff]
    tauto
  · rw [if_neg h1]
    by_cases h2 : config.plotter_type ≠ "basic" ∧ config.plotter_type ≠ "grayscale"
    · rw [if_pos h2]
      simp only [true_iff]
      tauto
    · rw [if_neg h2]
      by_cases h3 : (!config.palette.isEmpty && decide (config.palette.length < 2)) = true
      · rw [if_pos h3]
        simp only [true_iff]
        exact Or.inr (Or.inr (Or.inr (hpal.1 h3)))
      · rw [if_neg h3]
        simp only [Bool.true_eq_false, false_iff]
        rintro (h | h | h | h)
        · exact h1 (Or.inl h)
        · exact h1 (Or.inr h)
        · exact h2 h
        · exact h3 (hpal.2 h)

/-- C16: `ValidateConfig` returns true exactly when `width > 0`, `height > 0`, `plotter_type`
is `"basic"` or `"grayscale"`, and the palette is empty or has at least 2 entries. -/
theorem C16_validateConfig (config : PlotterConfig) :
    Config.ValidateConfig config = true ↔
      (0 < config.width ∧ 0 < config.height ∧
        (config.plotter_type = "basic" ∨ config.plotter_type = "grayscale") ∧
        (config.palette = [] ∨ 2 ≤ config.palette.length)) := by
  have hf := Config.ValidateConfig_eq_false config
  have hlen : config.palette.length = 1 ↔ ¬ (config.palette = [] ∨ 2 ≤ config.palette.length) := by
    cases hp : config.palette with
    | nil => simp
    | cons a l =>
      simp only [List.length_cons, reduceCtorEq, false_or]
      omega
  constructor
  · intro ht
    have hn : ¬ (config.width ≤ 0 ∨ config.height ≤ 0 ∨
        (config.plotter_type ≠ "basic" ∧ config.plotter_type ≠ "grayscale") ∨
        config.palette.length = 1) := by
      intro h
      rw [hf.2 h] at ht
      cases ht
    refine ⟨by omega, by omega, ?_, ?_⟩
    · by_contra hty
      exact hn (Or.inr (Or.inr (Or.inl ⟨fun h => hty (Or.inl h), fun h => hty (Or.inr h)⟩)))
    · by_contra hpal
      exact hn (Or.inr (Or.inr (Or.inr (hlen.2 hpal))))
  · rintro ⟨hw, hh, hty, hpal⟩
    cases hval : Config.ValidateConfig config with
    | true => rfl
    | false =>
      exfalso
      rcases hf.1 hval with h | h | h | h
      · omega
      · omega
      · rcases hty with e | e
        · exact h.1 e
        · exact h.2 e
      · exact hlen.1 h hpal

/-- The record `LoadFromString` assembles when the three required keys are present, and its
validation. -/
theorem Config.LoadFromString_present (width height : Int) (bg : String)
    (pal ty : Option String) :
    Config.LoadFromString ⟨some width, some height, some bg, pal, ty⟩ =
      if Config.ValidateConfig ⟨width, height, bg.toList.headD ' ',
          (pal.map String.toList).getD [], ty.getD "basic"⟩ = true
      then .ok ⟨width, height, bg.toList.headD ' ', (pal.map String.toList).getD [],
          ty.getD "basic"⟩
      else .error .runtimeError := by
  have hbg : (match bg.toList with
      | [] => ' '
      | ch :: _ => ch) = bg.toList.headD ' ' := by
    cases bg.toList <;> rfl
  have hpal : (match pal with
      | some palette_str => Config.ParsePalette palette_str
      | none => []) = (pal.map String.toList).getD [] := by
    cases pal with
    | none => rfl
    | some p => simp [Config.ParsePalette_eq]
  have hty : (match ty with
      | some s => s
      | none => "basic") = ty.getD "basic" := by
    cases ty <;> rfl
  simp only [Config.LoadFromString, hbg, hpal, hty]
  cases Config.ValidateConfig ⟨width, height, bg.toList.headD ' ',
    (pal.map String.toList).getD [], ty.getD "basic"⟩ <;> simp

/-- C17 (as amended): a configuration record that `ValidateConfig` accepts, and so every record
`LoadFromString` returns, has a palette that is empty or has at least 2 entries. -/
theorem C17_palette_size (config : PlotterConfig)
    (hval : Config.ValidateConfig config = true ∨
      ∃ root, Config.LoadFromString root = .ok config) :
    config.palette = [] ∨ 2 ≤ config.palette.length := by
  have hv : Config.ValidateConfig config = true := by
    rcases hval with h | ⟨root, h⟩
    · exact h
    · obtain ⟨w, hh, bg, pal, ty⟩ := root
      cases w with
      | none => simp [Config.LoadFromString] at h
      | some w =>
        cases hh with
        | none => simp [Config.LoadFromString] at h
        | some hh =>
          cases bg with
          | none => simp [Config.LoadFromString] at h
          | some bg =>
            rw [Config.LoadFromString_present] at h
            split at h
            · rename_i hok
              cases h
              exact hok
            · cases h
  have hne : config.palette.length ≠ 1 := by
    intro h1
    have := (Config.ValidateConfig_eq_false config).2 (Or.inr (Or.inr (Or.inr h1)))
    rw [this] at hv
    cases hv
  cases hp : config.palette with
  | nil => exact Or.inl rfl
  | cons a l =>
    right
    rw [hp] at hne
    simp only [List.length_cons] at hne ⊢
    omega

/-- Witness of C17 at the record with the palette `"ab"`. -/
theorem C17_palette_size_witness :
    Config.ValidateConfig ⟨80, 40, ' ', ['a', 'b'], "basic"⟩ = true ∧
    ((['a', 'b'] : List Char) = [] ∨ 2 ≤ (['a', 'b'] : List Char).length) :=
  ⟨by decide, C17_palette_size ⟨80, 40, ' ', ['a', 'b'], "basic"⟩ (Or.inl (by decide))⟩

/-- C17 fails as stated at the palette `"aa"`: the record passes `ValidateConfig`, is what
`LoadFromString` returns for `{width:1, height:1, background_char:" ", palette:"aa"}`, and its
palette is not empty and holds no two distinct characters. -/
theorem C17_counterexample_repeated_entry :
    Config.ValidateConfig ⟨1, 1, ' ', ['a', 'a'], "basic"⟩ = true ∧
    Config.LoadFromString ⟨some 1, some 1, some " ", some "aa", none⟩ =
      .ok ⟨1, 1, ' ', ['a', 'a'], "basic"⟩ ∧
    ¬ ((['a', 'a'] : List Char) = [] ∨
      ∃ a ∈ (['a', 'a'] : List Char), ∃ b ∈ (['a', 'a'] : List Char), a ≠ b) := by
  decide

/-- C18: as a function of the parsed root object, `LoadFromString` fails exactly when one of
the keys `width`, `height`, `background_char` is missing or the assembled record fails
`ValidateConfig` (a non-positive width or height, a `plotter_type` other than `"basic"` and
`"grayscale"`, a palette string of exactly one character); otherwise it returns a record, and
every record it returns satisfies `ValidateConfig`.  Scenario:
`{width:-1, height:5, background_char:"x"}` fails. -/
theorem C18_loadFromString_fails (root : JsonRoot) :
    ((∃ e, Config.LoadFromString root = .error e) ↔
      (root.width = none ∨ root.height = none ∨ root.background_char = none ∨
        (∃ w, root.width = some w ∧ w ≤ 0) ∨ (∃ h, root.height = some h ∧ h ≤ 0) ∨
        (∃ t, root.plotter_type = some t ∧ t ≠ "basic" ∧ t ≠ "grayscale") ∨
        (∃ p, root.palette = some p ∧ p.length = 1))) ∧
    (∀ config, Config.LoadFromString root = .ok config →
      Config.ValidateConfig config = true) ∧
    ((∃ e, Config.LoadFromString root = .error e) ∨
      ∃ config, Config.LoadFromString root = .ok config) ∧
    Config.LoadFromString ⟨some (-1), some 5, some "x", none, none⟩ = .error .runtimeError := by
  refine ⟨?_, ?_, ?_, by decide⟩
  · obtain ⟨w, h, bg, pal, ty⟩ := root
    cases w with
    | none => simp [Config.LoadFromString]
    | some w =>
      cases h with
      | none => simp [Config.LoadFromString]
      | some h =>
        cases bg with
        | none => simp [Config.LoadFromString]
        | some bg =>
          rw [Config.LoadFromString_present]
          have hf := Config.ValidateConfig_eq_false ⟨w, h, bg.toList.headD ' ',
            (pal.map String.toList).getD [], ty.getD "basic"⟩
          simp only at hf
          have hty : (ty.getD "basic" ≠ "basic" ∧ ty.getD "basic" ≠ "grayscale") ↔
              ∃ t, ty = some t ∧ t ≠ "basic" ∧ t ≠ "grayscale" := by
            cases ty with
            | none => simp
            | some t => simp
          have hpal : ((pal.map String.toList).getD []).length = 1 ↔
              ∃ p, pal = some p ∧ p.length = 1 := by
            cases pal with
            | none => simp
            | some p =>
              constructor
              · intro hlen
                exact ⟨p, rfl, hlen⟩
              · rintro ⟨q, hq, hlen⟩
                cases hq
                exact hlen
          simp only [reduceCtorEq, false_or, Option.some.injEq, exists_eq_left']
          cases hval : Config.ValidateConfig ⟨w, h, bg.toList.headD ' ',
            (pal.map String.toList).getD [], ty.getD "basic"⟩ with
          | true =>
            have hn : ¬ (w ≤ 0 ∨ h ≤ 0 ∨
                (ty.getD "basic" ≠ "basic" ∧ ty.getD "basic" ≠ "grayscale") ∨
                ((pal.map String.toList).getD []).length = 1) := by
              intro hh
              rw [hf.2 hh] at hval
              cases hval
            simp only [if_true, reduceCtorEq, exists_false, false_iff]
            rintro (h1 | h1 | h1 | h1)
            · exact hn (Or.inl h1)
            · exact hn (Or.inr (Or.inl h1))
            · exact hn (Or.inr (Or.inr (Or.inl (hty.2 h1))))
            · exact hn (Or.inr (Or.inr (Or.inr (hpal.2 h1))))
          | false =>
            simp only [Bool.false_eq_true, if_false, Except.error.injEq, exists_eq', true_iff]
            rcases hf.1 hval with h1 | h1 | h1 | h1
            · exact Or.inl h1
            · exact Or.inr (Or.inl h1)
            · exact Or.inr (Or.inr (Or.inl (hty.1 h1)))
            · exact Or.inr (Or.inr (Or.inr (hpal.1 h1)))
  · intro config hc
    obtain ⟨w, h, bg, pal, ty⟩ := root
    cases w with
    | none => simp [Config.LoadFromString] at hc
    | some w =>
      cases h with
      | none => simp [Config.LoadFromString] at hc
      | some h =>
        cases bg with
        | none => simp [Config.LoadFromString] at hc
        | some bg =>
          rw [Config.LoadFromString_present] at hc
          split at hc
          · rename_i hok
            cases hc
            exact hok
          · cases hc
  · cases hres : Config.LoadFromString root with
    | error e => exact Or.inl ⟨e, rfl⟩
    | ok config => exact Or.inr ⟨config, rfl⟩

/-- C19: when `LoadFromString` returns a record, its width and height are the integers of the
document, its background is the first character of the `background_char` string, or a blank
when that string is empty, its palette is the list of the characters of the `palette` string in
order, empty when the key is absent, and its plotter type is the string of the document, or
`"basic"` when the key is absent. -/
theorem C19_load_fields (root : JsonRoot) (config : PlotterConfig)
    (hc : Config.LoadFromString root = .ok config) :
    root.width = some config.width ∧ root.height = some config.height ∧
    (∃ bg, root.background_char = some bg ∧ config.background_char = bg.toList.headD ' ') ∧
    config.palette = (root.palette.map String.toList).getD [] ∧
    config.plotter_type = root.plotter_type.getD "basic" := by
  obtain ⟨w, h, bg, pal, ty⟩ := root
  cases w with
  | none => simp [Config.LoadFromString] at hc
  | some w =>
    cases h with
    | none => simp [Config.LoadFromString] at hc
    | some h =>
      cases bg with
      | none => simp [Config.LoadFromString] at hc
      | some bg =>
        rw [Config.LoadFromString_present] at hc
        split at hc
        · cases hc
          exact ⟨rfl, rfl, ⟨bg, rfl, rfl⟩, rfl, rfl⟩
        · cases hc

/-- Witness of C19 at `{width:80, height:40, background_char:"#x", palette:"ab"}`. -/
theorem C19_load_fields_witness :
    Config.LoadFromString ⟨some 80, some 40, some "#x", some "ab", none⟩ =
      .ok ⟨80, 40, '#', ['a', 'b'], "basic"⟩ ∧
    (PlotterConfig.mk 80 40 '#' ['a', 'b'] "basic").palette =
      (((some "ab" : Option String)).map String.toList).getD [] :=
  ⟨by decide,
    (C19_load_fields ⟨some 80, some 40, some "#x", some "ab", none⟩
      ⟨80, 40, '#', ['a', 'b'], "basic"⟩ (by decide)).2.2.2.1⟩

/-! ## Order and distance of iterators -/

theorem wrap_int_long {z : Int} (h : IsInt z) : wrapInt (wrapLong z) = z := by
  have hl : IsLong z := by
    unfold IsInt INT_MIN INT_MAX at h
    unfold IsLong
    omega
  rw [wrapLong_of_isLong hl, wrapInt_of_isInt h]

theorem PixelIterator.diff_of_isLong (a b : PixelIterator)
    (h : IsLong ((b.pos_ : Int) - (a.pos_ : Int))) :
    b.operator_diff a = (b.pos_ : Int) - (a.pos_ : Int) := by
  unfold IsLong at h
  unfold PixelIterator.operator_diff wrapLong
  omega

/-- C20 (as amended): for two iterators of one family whose positions differ by a value of the
signed result type (`int` for row and column iterators, `difference_type` for pixel
iterators), `a < b` holds exactly when `b - a > 0`, and on the same canvas and fixed axis
`a == b` holds exactly when `b - a == 0`.  For `n > 0`, `(c - n) < c` holds when the position
less `n` is a value of the position type (an `int`; for the pixel iterator a `size_t`, so
`n` is at most the position), and `c < (c + n)` holds when the position plus `n` is one. -/
theorem C20_order_distance :
    (∀ a b : RowIterator, IsInt (b.col_ - a.col_) →
      (a.operator_lt b = true ↔ 0 < b.operator_diff a) ∧
      (a.canvas_ = b.canvas_ → a.row_ = b.row_ →
        (a.operator_eq b = true ↔ b.operator_diff a = 0))) ∧
    (∀ (c : RowIterator) (n : Int), 0 < n →
      (IsInt (c.col_ - n) → (c.operator_minus n).operator_lt c = true) ∧
      (IsInt (c.col_ + n) → c.operator_lt (c.operator_plus n) = true)) ∧
    (∀ a b : ColumnIterator, IsInt (b.row_ - a.row_) →
      (a.operator_lt b = true ↔ 0 < b.operator_diff a) ∧
      (a.canvas_ = b.canvas_ → a.col_ = b.col_ →
        (a.operator_eq b = true ↔ b.operator_diff a = 0))) ∧
    (∀ (c : ColumnIterator) (n : Int), 0 < n →
      (IsInt (c.row_ - n) → (c.operator_minus n).operator_lt c = true) ∧
      (IsInt (c.row_ + n) → c.operator_lt (c.operator_plus n) = true)) ∧
    (∀ a b : PixelIterator, IsLong ((b.pos_ : Int) - (a.pos_ : Int)) →
      (a.operator_lt b = true ↔ 0 < b.operator_diff a) ∧
      (a.canvas_ = b.canvas_ → (a.operator_eq b = true ↔ b.operator_diff a = 0))) ∧
    (∀ (c : PixelIterator) (n : Int), 0 < n → c.pos_ < 18446744073709551616 →
      (n ≤ (c.pos_ : Int) → (c.operator_minus n).operator_lt c = true) ∧
      ((c.pos_ : Int) + n < 18446744073709551616 →
        c.operator_lt (c.operator_plus n) = true)) := by
  refine ⟨?_, ?_, ?_, ?_, ?_, ?_⟩
  · intro a b hd
    have hdiff : b.operator_diff a = b.col_ - a.col_ := wrapInt_of_isInt hd
    rw [hdiff]
    refine ⟨?_, fun hc hr => ?_⟩
    · simp only [RowIterator.operator_lt, decide_eq_true_eq]
      omega
    · simp only [RowIterator.operator_eq, hc, hr, decide_True, Bool.true_and,
        decide_eq_true_eq]
      omega
  · intro c n hn
    refine ⟨fun h => ?_, fun h => ?_⟩
    · simp only [RowIterator.operator_lt, RowIterator.operator_minus, wrap_int_long h,
        decide_eq_true_eq]
      omega
    · simp only [RowIterator.operator_lt, RowIterator.operator_plus, wrap_int_long h,
        decide_eq_true_eq]
      omega
  · intro a b hd
    have hdiff : b.operator_diff a = b.row_ - a.row_ := wrapInt_of_isInt hd
    rw [hdiff]
    refine ⟨?_, fun hc hr => ?_⟩
    · simp only [ColumnIterator.operator_lt, decide_eq_true_eq]
      omega
    · simp only [ColumnIterator.operator_eq, hc, hr, decide_True, Bool.true_and,
        decide_eq_true_eq]
      omega
  · intro c n hn
    refine ⟨fun h => ?_, fun h => ?_⟩
    · simp only [ColumnIterator.operator_lt, ColumnIterator.operator_minus, wrap_int_long h,
        decide_eq_true_eq]
      omega
    · simp only [ColumnIterator.operator_lt, ColumnIterator.operator_plus, wrap_int_long h,
        decide_eq_true_eq]
      omega
  · intro a b hd
    rw [PixelIterator.diff_of_isLong a b hd]
    refine ⟨?_, fun hc => ?_⟩
    · simp only [PixelIterator.operator_lt, decide_eq_true_eq]
      omega
    · simp only [PixelIterator.operator_eq, hc, decide_True, Bool.true_and, decide_eq_true_eq]
      omega
  · intro c n hn hpos
    refine ⟨fun h => ?_, fun h => ?_⟩
    · simp only [PixelIterator.operator_lt, PixelIterator.operator_minus, toSizeT,
        decide_eq_true_eq]
      omega
    · simp only [PixelIterator.operator_lt, PixelIterator.operator_plus, toSizeT,
        decide_eq_true_eq]
      omega

/-- C20 fails as stated for the pixel iterator at `begin()` and `n = 1`: the position of
`begin() - 1` is `0 - 1` in `size_t`, the largest value, so `(c - 1) < c` is false, although
the distance `c - (c - 1)` is `1 > 0`. -/
theorem C20_counterexample_pixel_begin :
    (Canvas.begin 7).operator_minus 1 = ⟨7, 18446744073709551615⟩ ∧
    ((Canvas.begin 7).operator_minus 1).operator_lt (Canvas.begin 7) = false ∧
    (Canvas.begin 7).operator_diff ((Canvas.begin 7).operator_minus 1) = 1 ∧
    ¬ (((Canvas.begin 7).operator_minus 1).operator_lt (Canvas.begin 7) = true ↔
      0 < (Canvas.begin 7).operator_diff ((Canvas.begin 7).operator_minus 1)) := by
  decide

end plotter
